import Mathlib

/-!
Verification development for the rust-bpm-analyzer repository.

The repository contains two generations of the BPM analyser:

* `src/core_bpm/analyzer.rs` — the reference-lock analyser (history of 5,
  drop-locked reference tempo, adaptive energy gate).  Its per-batch state
  machine (lines 432-517) and its pure helper computations are embedded in
  namespace `Old` below.
* `src/src/core_bpm/analyzer.rs` — the newer analyser (history of 3, aubio
  cross validation, smoothed correlation search).  It is embedded in
  namespace `NewA`.

All machine floats are modelled as exact rationals (`ℚ`); the filtering,
buffering, correlation and gating logic is pure arithmetic so the control
flow of the source translates directly.  External effects are modelled as
explicit inputs: the wall clock is a `ℚ` argument (`Instant::now()` readings),
and the aubio tempo tracker (an external C library) is an oracle supplying
the per-hop `(confidence, bpm)` readings and the last-beat time.
-/

namespace BpmSpec

/-- Autocorrelation inner product `r(lag) = Σ_{i=0}^{|v|-lag-1} v[i]·v[i+lag]`,
exactly the inner loop `for i in 0..(len - lag) { corr += v[i]*v[i+lag] }`
shared by both analysers: zipping the window with its `lag`-shifted copy
pairs `v[i]` with `v[i+lag]` for every `i < len - lag`. -/
def corrAt (v : List ℚ) (lag : ℕ) : ℚ :=
  ((v.zip (v.drop lag)).map (fun p => p.1 * p.2)).sum

/-- One step of the running-argmax loops of the source: keep the candidate if
its correlation strictly exceeds the best so far (initial best is `(0, 0)`). -/
def scanStep (f : ℕ → ℚ) (b : ℕ × ℚ) (lag : ℕ) : ℕ × ℚ :=
  if f lag > b.2 then (lag, f lag) else b

/-- The `best_lag := 0; max_corr := 0; for lag in lags { ... }` argmax loop
pattern of both analysers. -/
def scanFold (f : ℕ → ℚ) (lags : List ℕ) : ℕ × ℚ :=
  lags.foldl (scanStep f) (0, 0)

/-- Insertion of an element into a sorted list (ascending). -/
def insertSorted (x : ℚ) : List ℚ → List ℚ
  | [] => [x]
  | y :: ys => if x ≤ y then x :: y :: ys else y :: insertSorted x ys

/-- Ascending sort, modelling `sort_by(|a, b| a.partial_cmp(b) ...)` on the
(total, finite) rationals. -/
def sortQ (l : List ℚ) : List ℚ := l.foldr insertSorted []

/-- Rust `slice::chunks`: split into groups of `n`, the final group possibly
shorter.  `n = 0` never occurs in the source (steps are ≥ 1). -/
def chunksOf : ℕ → List α → List (List α)
  | _, [] => []
  | 0, l => [l]
  | n + 1, x :: xs => (x :: xs).take (n + 1) :: chunksOf (n + 1) ((x :: xs).drop (n + 1))
termination_by _ l => l.length
decreasing_by
  simp only [List.length_drop, List.length_cons]
  omega

/-- Rounding a positive tempo to one decimal, `(bpm * 10.0).round() / 10.0`.
For the positive values produced by the pipeline, `f32::round` (half away
from zero) agrees with `round` (half up). -/
def round01 (x : ℚ) : ℚ := ((round (x * 10) : ℤ) : ℚ) / 10

end BpmSpec

namespace BpmSpec.Old

/-- History entry of the reference-lock analyser: `(bpm, energy, _timestamp)`. -/
structure HistEntry where
  bpm : ℚ
  energy : ℚ
  timestamp : ℚ
deriving DecidableEq, Repr

/-- Mutable state of `BpmAnalyzer` (src/core_bpm/analyzer.rs) that the
per-batch smoothing/locking stage (lines 432-517) reads and writes:
`history`, `last_detection_time`, `reference_bpm`, `average_energy`.
The ring buffers and filter state feed the earlier, purely computational
stages and never influence these fields other than through the per-batch
quantities `(raw_bpm, is_drop, fine_energy_mean)` abstracted in `Input`. -/
structure State where
  history : List HistEntry
  lastDetectionTime : ℚ
  referenceBpm : ℚ
  averageEnergy : ℚ
deriving DecidableEq, Repr

/-- Outcome of the computational stages of one `process` call.  `earlyReject`
covers every `return empty_result` before line 432 (buffer not yet full,
noise gate, correlation failure, low confidence): none of those paths touches
`history`, `last_detection_time` or `reference_bpm`.  `full raw_bpm is_drop
energy_mean` carries the quantities lines 432-517 consume. -/
inductive Input where
  | earlyReject
  | full (rawBpm : ℚ) (isDrop : Bool) (energyMean : ℚ)
deriving DecidableEq, Repr

/-- The non-empty analysis result (the source returns `AnalysisResult` with
`bpm = 0` for rejections; we model rejection as `none`). -/
structure Result where
  bpm : ℚ
  isDrop : Bool
  energy : ℚ
  averageEnergy : ℚ
deriving DecidableEq, Repr

/-- Reference-coherence test, lines 461-469: `test_ref = reference * 0.1`;
accept when the raw BPM is within `test_ref` of the reference, within
`test_ref/2` of twice the reference, within `test_ref*2` of half the
reference, or within `test_ref/3` of three times the reference. -/
def referenceAccept (ref raw : ℚ) : Bool :=
  let testRef := ref * (1 / 10)
  let isClose := |raw - ref| ≤ testRef
  let isDouble := |raw - ref * 2| ≤ testRef / 2
  let isHalf := |raw - ref / 2| ≤ testRef * 2
  let isTriple := |raw - ref * 3| ≤ testRef / 3
  isClose || isDouble || isHalf || isTriple

/-- Silence reset, lines 434-438: clear history and reference when more than
10 seconds have elapsed since the last accepted detection. -/
def silenceReset (s : State) (now : ℚ) : State :=
  if 10 < now - s.lastDetectionTime then { s with history := [], referenceBpm := 0 } else s

/-- Adaptive energy gate, lines 440-453: reject when the history is non-empty
and the current fine mean energy is below 90% of the mean history energy and
below 0.03. -/
def adaptiveGateRejects (s : State) (energyMean : ℚ) : Bool :=
  (!s.history.isEmpty) &&
    decide (energyMean < ((s.history.map HistEntry.energy).sum / (s.history.length : ℚ)) * (9 / 10)) &&
    decide (energyMean < 3 / 100)

/-- History update and smoothing, lines 478-517: evict the oldest entry when
the history holds 5, push the new entry, set `last_detection_time`, and
return the median BPM and mean energy of the updated history. -/
def commit (s : State) (now rawBpm energyMean : ℚ) (isDrop : Bool) : State × Option Result :=
  let hist1 := if 5 ≤ s.history.length then s.history.tail else s.history
  let hist2 := hist1 ++ [⟨rawBpm, energyMean, now⟩]
  let sorted := sortQ (hist2.map HistEntry.bpm)
  let smoothedBpm := sorted.getD (sorted.length / 2) rawBpm
  let smoothedEnergy := (hist2.map HistEntry.energy).sum / (hist2.length : ℚ)
  ({ history := hist2, lastDetectionTime := now, referenceBpm := s.referenceBpm,
     averageEnergy := smoothedEnergy },
   some ⟨smoothedBpm, isDrop, energyMean, smoothedEnergy⟩)

/-- Per-batch update of the smoothing/locking stage of
`BpmAnalyzer::process`, lines 432-517: silence reset, adaptive gate, drop
lock / reference-coherence filter, history update. -/
def processUpdate (s : State) (now : ℚ) (inp : Input) : State × Option Result :=
  match inp with
  | .earlyReject => (s, none)
  | .full rawBpm isDrop energyMean =>
    let s1 := silenceReset s now
    if adaptiveGateRejects s1 energyMean then (s1, none)
    else if isDrop then commit { s1 with referenceBpm := rawBpm } now rawBpm energyMean true
    else if 0 < s1.referenceBpm then
      if referenceAccept s1.referenceBpm rawBpm then commit s1 now rawBpm energyMean false
      else (s1, none)
    else (s1, none)

/-- State after `BpmAnalyzer::new`: empty history, `last_detection_time`
equal to the construction instant, reference and average energy 0. -/
def init (t0 : ℚ) : State := ⟨[], t0, 0, 0⟩

/-- Run a sequence of `process` calls; each element carries the call's
wall-clock reading and the outcome of the computational stages. -/
def run (s : State) : List (ℚ × Input) → State
  | [] => s
  | (t, i) :: rest => run (processUpdate s t i).1 rest

/-- A call accepts a drop when it returns an estimate flagged `is_drop`. -/
def acceptsDrop (s : State) (t : ℚ) (i : Input) : Bool :=
  match (processUpdate s t i).2 with
  | some r => r.isDrop
  | none => false

/-- No call of the trace accepted a drop estimate. -/
def noAcceptedDrop (s : State) : List (ℚ × Input) → Bool
  | [] => true
  | (t, i) :: rest => !acceptsDrop s t i && noAcceptedDrop (processUpdate s t i).1 rest

/-- Coarse autocorrelation search of the reference-lock analyser, lines
202-214: exhaustive argmax of `corrAt` over `min_lag..=max_lag`. -/
def coarseSearch (v : List ℚ) (minLag maxLag : ℕ) : ℕ × ℚ :=
  scanFold (corrAt v) (List.range' minLag (maxLag + 1 - minLag))

/-- The three-lag neighbourhood scans of the octave corrector, lines 246-255
and 271-280: argmax of `corrAt` over `center-1, center, center+1` (with
saturating subtraction, as in the source). -/
def scanThree (v : List ℚ) (center : ℕ) : ℕ × ℚ :=
  scanFold (corrAt v) [center - 1, center, center + 1]

/-- Octave correction of the reference-lock analyser, lines 233-287: adopt
the best half-lag neighbour when its correlation exceeds `0.4 · initial_corr`
(and `l0/2 ≥ min_lag`), then adopt the best third-lag neighbour when its
correlation exceeds `0.3 · initial_corr` (and `l0/3 ≥ min_lag`), the third
check overriding the half check. -/
def checkHarmonics (v : List ℚ) (initialLag : ℕ) (initialCorr : ℚ) (minLag : ℕ) : ℕ :=
  let afterHalf :=
    if minLag ≤ initialLag / 2 then
      let h := scanThree v (initialLag / 2)
      if h.2 > initialCorr * (2 / 5) then h.1 else initialLag
    else initialLag
  if minLag ≤ initialLag / 3 then
    let t := scanThree v (initialLag / 3)
    if t.2 > initialCorr * (3 / 10) then t.1 else afterHalf
  else afterHalf

/-- Drop detection of the reference-lock analyser, lines 400-426, on the
peak-normalised fine window: split at `3N/4`, compare the mean square of the
recent quarter with 1.2 times the mean square of the first three quarters,
with the absolute floor 0.01. -/
def checkDropWindow (v : List ℚ) : Bool :=
  let splitIndex := v.length * 3 / 4
  let historyEnergy := ((v.take splitIndex).map (fun x => x * x)).sum / ((max splitIndex 1 : ℕ) : ℚ)
  let currentEnergy :=
    ((v.drop splitIndex).map (fun x => x * x)).sum / ((max (v.length - splitIndex) 1 : ℕ) : ℚ)
  decide (currentEnergy > historyEnergy * (6 / 5)) && decide (currentEnergy > 1 / 100)

end BpmSpec.Old

namespace BpmSpec.NewA

/-- One transposed-direct-form-II biquad section with rational coefficients
and its two state reservoirs.  The coefficient values are produced at
construction from the Butterworth formulas (transcendental), so they are
carried as data here; the per-sample recurrence is exact. -/
structure Biquad where
  b0 : ℚ
  b1 : ℚ
  b2 : ℚ
  a1 : ℚ
  a2 : ℚ
  s1 : ℚ
  s2 : ℚ
deriving DecidableEq, Repr

/-- The biquad crate's `DirectForm2Transposed::run`:
`out = s1 + b0·x; s1 := s2 + b1·x − a1·out; s2 := b2·x − a2·out`. -/
def Biquad.run (f : Biquad) (x : ℚ) : Biquad × ℚ :=
  let y := f.s1 + f.b0 * x
  ({ f with s1 := f.s2 + f.b1 * x - f.a1 * y, s2 := f.b2 * x - f.a2 * y }, y)

/-- `AudioFilter::process`: run the sample through the cascade of sections. -/
def filterRun : List Biquad → ℚ → List Biquad × ℚ
  | [], x => ([], x)
  | f :: rest, x =>
    let p := f.run x
    let q := filterRun rest p.2
    (p.1 :: q.1, q.2)

/-- `SamplingConfig`: a ring buffer with its rate, decimation step and lag
range (src/src/core_bpm/analyzer.rs lines 70-91). -/
structure SConfig where
  buffer : List ℚ
  capacity : ℕ
  rate : ℚ
  step : ℕ
  minLag : ℕ
  maxLag : ℕ
deriving DecidableEq, Repr

/-- `SamplingConfig::new`: capacity `rate · duration`, lag bounds
`rate·60/max_bpm` and `rate·60/min_bpm` (`as usize` truncation). -/
def SConfig.make (rate durationSecs : ℚ) (step : ℕ) (minBpm maxBpm : ℚ) : SConfig :=
  { buffer := [], capacity := (⌊rate * durationSecs⌋).toNat, rate := rate, step := step,
    minLag := (⌊rate * 60 / maxBpm⌋).toNat, maxLag := (⌊rate * 60 / minBpm⌋).toNat }

/-- Push with head eviction: `if len >= capacity { pop_front() } push_back(x)`. -/
def pushEvict (cap : ℕ) (buf : List ℚ) (x : ℚ) : List ℚ :=
  if cap ≤ buf.length then buf.tail ++ [x] else buf ++ [x]

/-- Push a batch of produced values into a ring buffer. -/
def pushList (cap : ℕ) (buf : List ℚ) (xs : List ℚ) : List ℚ :=
  xs.foldl (pushEvict cap) buf

/-- The fine-stage transform of `process` step 1: for each chunk, run every
sample through the filter cascade and average the rectified outputs,
threading the filter state across chunks. -/
def fineOutputs (f : List Biquad) (chunks : List (List ℚ)) : List Biquad × List ℚ :=
  chunks.foldl
    (fun acc ch =>
      let p := ch.foldl
        (fun (q : List Biquad × ℚ) x =>
          let r := filterRun q.1 x
          (r.1, q.2 + |r.2|)) (acc.1, 0)
      (p.1, acc.2 ++ [p.2 / (ch.length : ℚ)]))
    (f, [])

/-- History entry of the newer analyser: `(bpm, timestamp)`. -/
structure HistEntry where
  bpm : ℚ
  timestamp : ℚ
deriving DecidableEq, Repr

/-- State of the newer `BpmAnalyzer`: the three sampling configurations, the
input filter cascade, the bounded history, the two confidence thresholds of
`BpmAnalyzerConfig`, and the aubio hop size. -/
structure State where
  fineC : SConfig
  coarseC : SConfig
  rawC : SConfig
  filter : List Biquad
  history : List HistEntry
  fineThr : ℚ
  coarseThr : ℚ
  hop : ℕ
deriving DecidableEq, Repr

/-- Output `AnalysisResult` of the newer analyser. -/
structure Result where
  bpm : ℚ
  isDrop : Bool
  confidence : ℚ
  coarseConfidence : ℚ
  beatOffset : Option ℚ
deriving DecidableEq, Repr

/-- Result of `normalize_window`: the peak-normalised window, its centred
copy, and the energy sum and mean of the centred copy. -/
structure NormOut where
  vec : List ℚ
  centered : List ℚ
  energySum : ℚ
  energyMean : ℚ
deriving DecidableEq, Repr

/-- `BpmAnalyzer::normalize_window` (lines 318-354).  The running max starts
from NaN in the source (`fold(0.0/0.0, f32::max)`, for which `max(NaN, x) = x`);
the buffers only ever hold non-negative envelope values, so folding from 0 is
the same maximum. -/
def normalizeWindow (buf : List ℚ) : NormOut :=
  let rawMax := buf.foldl max 0
  let v := if 0 < rawMax then buf.map (· / rawMax) else buf
  let mean := v.sum / (v.length : ℚ)
  let c := v.map (· - mean)
  let eSum := (c.map (fun x => x * x)).sum
  let eMean := if c.isEmpty then 0 else eSum / (c.length : ℚ)
  ⟨v, c, eSum, eMean⟩

/-- The three-point moving-average smoothing of `search_correlation` (lines
377-381): interior lags of the searched range are replaced by the average of
the raw correlation at the lag and its two neighbours; the boundary lags keep
their raw correlation. -/
def smoothedCorr (v : List ℚ) (startL endL lag : ℕ) : ℚ :=
  if startL + 1 ≤ lag ∧ lag + 1 < endL then
    (corrAt v (lag - 1) + corrAt v lag + corrAt v (lag + 1)) / 3
  else corrAt v lag

/-- The argmax of the smoothed correlations over the effective lag range
`[max(1,min_lag), min(max_lag, len-1)]` of `search_correlation`. -/
def searchBest (v : List ℚ) (minLag maxLag : ℕ) : ℕ × ℚ :=
  let startL := max minLag 1
  let endL := min maxLag (v.length - 1)
  scanFold (smoothedCorr v startL endL) (List.range' startL (endL + 1 - startL))

/-- `BpmAnalyzer::search_correlation` (lines 356-404): raw correlations over
`[max(1,min_lag), min(max_lag, len-1)]`, three-point smoothing of the
interior, argmax of the smoothed values, failure when no lag won or the
confidence `max_corr / energy` is below the threshold. -/
def searchCorrelation (v : List ℚ) (energy : ℚ) (minLag maxLag : ℕ) (minConfidence : ℚ) :
    Option (ℕ × ℚ × ℚ) :=
  let best := searchBest v minLag maxLag
  if best.1 = 0 then none
  else
    let confidence := if 0 < energy then best.2 / energy else 0
    if confidence < minConfidence then none else some (best.1, confidence, best.2)

/-- `BpmAnalyzer::check_harmonics` (lines 406-440): scan the eleven lags
`l0/2 − 5 ..= l0/2 + 5` (skipping those below `min_lag` or beyond the signal),
and adopt the best of them when its raw correlation exceeds `0.5·initial_corr`;
there is no third-lag stage in this version. -/
def checkHarmonics (v : List ℚ) (initialLag : ℕ) (initialCorr : ℚ) (minLag : ℕ) : ℕ :=
  let halfLag := initialLag / 2
  if minLag ≤ halfLag then
    let lags := (List.range' (halfLag - 5) (halfLag + 5 + 1 - (halfLag - 5))).filter
      (fun lag => decide (minLag ≤ lag) && decide (lag < v.length))
    let best := lags.foldl (scanStep (corrAt v)) (halfLag, 0)
    if best.2 > initialCorr * (1 / 2) then best.1 else initialLag
  else initialLag

/-- `BpmAnalyzer::parabolic_interpolation` (lines 442-472): three-point
quadratic vertex around the winning lag, applied only strictly inside the
search range and with the denominator guard `|den| > 0.0001`.  As in the
source, the centre ordinate is the (smoothed) `max_corr` while the
neighbours are raw correlations. -/
def parabolicInterpolation (v : List ℚ) (bestLag : ℕ) (maxCorr : ℚ) (startLag endLag : ℕ) : ℚ :=
  if startLag < bestLag ∧ bestLag < endLag then
    let yPrev := corrAt v (bestLag - 1)
    let yNext := corrAt v (bestLag + 1)
    let den := 2 * (yPrev - 2 * maxCorr + yNext)
    if 1 / 10000 < |den| then (bestLag : ℚ) + (yPrev - yNext) / den else (bestLag : ℚ)
  else (bestLag : ℚ)

/-- `BpmAnalyzer::check_drop` (lines 474-499): split the window at one half,
compare the recent mean square against `threshold` (default 1.3) times the
earlier mean square, with the absolute floor 0.04. -/
def checkDrop (samples : List ℚ) (threshold : Option ℚ) : Bool :=
  let splitIndex := samples.length / 2
  let thr := threshold.getD (13 / 10)
  let historyEnergy :=
    ((samples.take splitIndex).map (fun x => x * x)).sum / ((max splitIndex 1 : ℕ) : ℚ)
  let currentEnergy :=
    ((samples.drop splitIndex).map (fun x => x * x)).sum /
      ((max (samples.length - splitIndex) 1 : ℕ) : ℚ)
  decide (currentEnergy > historyEnergy * thr) && decide (currentEnergy > 1 / 25)

/-- Buffer maintenance of `process` (lines 505-538): input → fine (filtered,
rectified, decimated), the fresh fine outputs → coarse, and input → raw
(mean square), each pushed into its ring buffer. -/
def pushAll (s : State) (samples : List ℚ) : State :=
  let fo := fineOutputs s.filter (chunksOf s.fineC.step samples)
  let fineBuf := pushList s.fineC.capacity s.fineC.buffer fo.2
  let coarseOut := (chunksOf s.coarseC.step fo.2).map (fun ch => ch.sum / (ch.length : ℚ))
  let coarseBuf := pushList s.coarseC.capacity s.coarseC.buffer coarseOut
  let rawOut := (chunksOf s.rawC.step samples).map
    (fun ch => (ch.map (fun x => x * x)).sum / (ch.length : ℚ))
  let rawBuf := pushList s.rawC.capacity s.rawC.buffer rawOut
  { s with
    filter := fo.1,
    fineC := { s.fineC with buffer := fineBuf },
    coarseC := { s.coarseC with buffer := coarseBuf },
    rawC := { s.rawC with buffer := rawBuf } }

/-- The per-batch quantities the analysis front end hands to the history
stage: raw rounded BPM, fine confidence, coarse confidence, drop flag. -/
structure FrontOut where
  bpm : ℚ
  confidence : ℚ
  coarseConfidence : ℚ
  isDrop : Bool
deriving DecidableEq, Repr

/-- Analysis front end of `process` on the already-updated buffers (lines
540-647): buffer-full gate, noise gate on the raw level, coarse
normalisation/search/harmonics, fine normalisation/search centred at the
coarse lag with radius 50, parabolic refinement, BPM rounding and drop
detection (`confidence > 0.6` and `check_drop(fine, 1.4)`). -/
def frontOut (s : State) : Option FrontOut :=
  if s.coarseC.buffer.length < s.coarseC.capacity then none
  else
    let rawLevel := s.rawC.buffer.sum / ((max s.rawC.buffer.length 1 : ℕ) : ℚ)
    if rawLevel < 1 / 200 then none
    else
      let nc := normalizeWindow s.coarseC.buffer
      if nc.energyMean ≤ 1 / 1000 then none
      else
        match searchCorrelation nc.centered nc.energySum s.coarseC.minLag s.coarseC.maxLag
          s.coarseThr with
        | none => none
        | some (bestLagC, coarseConf, maxCorrC) =>
          let lagH := checkHarmonics nc.centered bestLagC maxCorrC s.coarseC.minLag
          let centerLagF := lagH * s.coarseC.step
          let minLagF := centerLagF - 50
          let maxLagF := centerLagF + 50
          let nf := normalizeWindow s.fineC.buffer
          let startLag := max minLagF 1
          let endLag := min maxLagF (nf.centered.length - 1)
          match searchCorrelation nf.centered nf.energySum minLagF maxLagF s.fineThr with
          | none => none
          | some (bestLagF, confidence, maxCorrF) =>
            let refinedLag := parabolicInterpolation nf.centered bestLagF maxCorrF startLag endLag
            let bpm := round01 (s.fineC.rate * 60 / refinedLag)
            let isDrop := decide (3 / 5 < confidence) && checkDrop nf.vec (some (7 / 5))
            some ⟨bpm, confidence, coarseConf, isDrop⟩

/-- The aubio feeding loop of `process` (lines 663-675): after each hop-sized
`do_result` the tracker's `(confidence, bpm)` is read and the reading with
the highest confidence is kept, starting from `(0, 0)`.  The per-hop readings
of the external tracker are supplied as an oracle list. -/
def aubioSelect (reports : List (ℚ × ℚ)) : ℚ × ℚ :=
  reports.foldl (fun best rep => if rep.1 > best.1 then rep else best) (0, 0)

/-- The aubio cross-validation predicate of `process` (lines 678-686): some
multiplier `1 ..= 5` of the aubio BPM has the autocorrelation BPM within
`[m·aubio − 15, m·aubio + 5]`. -/
def aubioValid (bpm aubioBpm : ℚ) : Bool :=
  (List.range' 1 5).any fun mult =>
    decide (aubioBpm * (mult : ℚ) - 15 ≤ bpm) && decide (bpm ≤ aubioBpm * (mult : ℚ) + 5)

/-- History stage of `process` (lines 653-729): silence reset after more than
10 s since the last history entry, aubio cross-validation rejection, history
push with eviction at 3, median smoothing, and the aubio-based beat offset
for drops. -/
def backEnd (s : State) (fo : FrontOut) (aubioSel : ℚ × ℚ) (aubioLast now : ℚ) :
    State × Option Result :=
  let hist0 :=
    match s.history.getLast? with
    | some e => if 10 < now - e.timestamp then [] else s.history
    | none => s.history
  if aubioSel.2 ≠ 0 ∧ aubioValid fo.bpm aubioSel.2 = false then
    ({ s with history := hist0 }, none)
  else
    let hist1 := if 3 ≤ hist0.length then hist0.tail else hist0
    let hist2 := hist1 ++ [⟨fo.bpm, now⟩]
    let sorted := sortQ (hist2.map HistEntry.bpm)
    let smoothedBpm := sorted.getD (sorted.length / 2) fo.bpm
    let beatOffset := if fo.isDrop then some aubioLast else none
    ({ s with history := hist2 },
     some ⟨smoothedBpm, fo.isDrop, fo.confidence, fo.coarseConfidence, beatOffset⟩)

/-- `BpmAnalyzer::process` of the newer analyser: update the buffers, run the
analysis front end, select the aubio reading over the hops of this batch, and
run the history stage.  `Ok(None)` of the source is `none`. -/
def process (s : State) (samples : List ℚ) (aubioReports : List (ℚ × ℚ)) (aubioLast now : ℚ) :
    State × Option Result :=
  let s1 := pushAll s samples
  match frontOut s1 with
  | none => (s1, none)
  | some fo =>
    backEnd s1 fo (aubioSelect (aubioReports.take (samples.length / s.hop))) aubioLast now

end BpmSpec.NewA

namespace BpmSpec.Old

/-- Full mutable state of the reference-lock `BpmAnalyzer`
(src/core_bpm/analyzer.rs lines 38-51): the fine and coarse ring buffers with
the capacities fixed by the constructor, the rates and decimation steps, the
two cascaded biquad sections, the confidence thresholds, and the smoothing
sub-state consumed by `processUpdate`. -/
structure FullState where
  fineBuffer : List ℚ
  fineCapacity : ℕ
  coarseBuffer : List ℚ
  coarseCapacity : ℕ
  fineRate : ℚ
  coarseRate : ℚ
  fineStep : ℕ
  coarseStep : ℕ
  filter1 : NewA.Biquad
  filter2 : NewA.Biquad
  minConfidence : ℚ
  minCoarseConfidence : ℚ
  smoothing : State
deriving DecidableEq, Repr

/-- Steps 1-2 of the reference-lock `process` (lines 137-170): run every
sample of each `fine_step` chunk through the two biquads in cascade (their
state threading across the batch), average the rectified outputs into one
fine sample, push the fine samples into the fine ring buffer, average each
`coarse_step` group of the fresh fine samples into one coarse sample and
push those; both buffers evict their head at capacity. -/
def pushStage (s : FullState) (samples : List ℚ) : FullState :=
  let acc := (chunksOf s.fineStep samples).foldl
    (fun (a : (NewA.Biquad × NewA.Biquad) × List ℚ) ch =>
      let p := ch.foldl
        (fun (q : (NewA.Biquad × NewA.Biquad) × ℚ) x =>
          let r1 := q.1.1.run x
          let r2 := q.1.2.run r1.2
          ((r1.1, r2.1), q.2 + |r2.2|)) (a.1, 0)
      (p.1, a.2 ++ [p.2 / (ch.length : ℚ)]))
    ((s.filter1, s.filter2), [])
  let fineBuf := NewA.pushList s.fineCapacity s.fineBuffer acc.2
  let coarseOut := (chunksOf s.coarseStep acc.2).map (fun ch => ch.sum / (ch.length : ℚ))
  let coarseBuf := NewA.pushList s.coarseCapacity s.coarseBuffer coarseOut
  { s with filter1 := acc.1.1, filter2 := acc.1.2,
           fineBuffer := fineBuf, coarseBuffer := coarseBuf }

/-- Analysis stages of the reference-lock `process` on the already-updated
buffers (lines 172-426).  The two-second gate at line 173 compares the
coarse buffer length against `(coarse_rate * 2.0) as usize`, not against the
buffer's capacity.  The stages are: coarse peak normalisation (the NaN-seeded
running max reduces to a max over the nonnegative window with seed 0),
centring, exhaustive coarse autocorrelation search over
`⌊rate·60/310⌋..=⌊rate·60/60⌋`, coarse confidence, octave correction, fine
window ±50 around the scaled coarse lag, fine normalisation, noise and
energy gates, raw fine autocorrelation argmax, fine confidence, parabolic
refinement, rounding to 0.1 BPM, and intra-window drop detection.  Any
`return empty_result` is `none`; a success returns the rounded raw BPM, the
drop flag and the fine mean energy that lines 432-517 consume. -/
def analysisOut (s : FullState) : Option (ℚ × Bool × ℚ) :=
  if s.coarseBuffer.length < (⌊s.coarseRate * 2⌋).toNat then none
  else
    let maxC := s.coarseBuffer.foldl max 0
    let coarseVec := if 0 < maxC then s.coarseBuffer.map (· / maxC) else s.coarseBuffer
    let coarseMean := coarseVec.sum / (coarseVec.length : ℚ)
    let coarseCentered := coarseVec.map (· - coarseMean)
    let coarseEnergy := (coarseCentered.map (fun x => x * x)).sum
    let minLagC := (⌊s.coarseRate * 60 / 310⌋).toNat
    let best := coarseSearch coarseCentered minLagC (⌊s.coarseRate * 60 / 60⌋).toNat
    if best.1 = 0 then none
    else if 1 / 1000 < coarseEnergy then
      if best.2 / coarseEnergy < s.minCoarseConfidence then none
      else
        let centerLagF := checkHarmonics coarseCentered best.1 best.2 minLagC * s.coarseStep
        let rawMaxF := s.fineBuffer.foldl max 0
        let fineVec := if 0 < rawMaxF then s.fineBuffer.map (· / rawMaxF) else s.fineBuffer
        let fineMean := fineVec.sum / (fineVec.length : ℚ)
        let fineCentered := fineVec.map (· - fineMean)
        let fineEnergySum := (fineCentered.map (fun x => x * x)).sum
        let fineEnergyMean :=
          if fineCentered.isEmpty then 0 else fineEnergySum / (fineCentered.length : ℚ)
        if rawMaxF < 1 / 100 then none
        else if fineEnergyMean < 1 / 100000 then none
        else
          let startLag := max (centerLagF - 50) 1
          let endLag := min (centerLagF + 50) (fineCentered.length - 1)
          let bestF := scanFold (corrAt fineCentered) (List.range' startLag (endLag + 1 - startLag))
          if bestF.1 = 0 then none
          else
            let confidence := if 0 < fineEnergySum then bestF.2 / fineEnergySum else 0
            if confidence < s.minConfidence then none
            else
              let refinedLag :=
                NewA.parabolicInterpolation fineCentered bestF.1 bestF.2 startLag endLag
              some (round01 (s.fineRate * 60 / refinedLag), checkDropWindow fineVec, fineEnergyMean)
    else none

/-- `BpmAnalyzer::process` of the reference-lock analyser (lines 127-520):
update the buffers and filters, run the analysis stages, then hand the
outcome to the smoothing/locking stage; every `empty_result` is `none`. -/
def process (s : FullState) (now : ℚ) (samples : List ℚ) : FullState × Option Result :=
  let s1 := pushStage s samples
  match analysisOut s1 with
  | none => (s1, none)
  | some f =>
    let r := processUpdate s1.smoothing now (.full f.1 f.2.1 f.2.2)
    ({ s1 with smoothing := r.1 }, r.2)

end BpmSpec.Old

namespace BpmSpec

/-- Index of the maximum of the window over `[startIdx, |v|)`, modelling the
spec's "argmax index p of the fine window" (first index wins ties). -/
def argmaxIdx (v : List ℚ) (startIdx : ℕ) : ℕ :=
  (List.range' startIdx (v.length - startIdx)).foldl
    (fun best i => if v.getD i 0 > v.getD best 0 then i else best) startIdx

/-- Claim-side definition for C2, following the claim's words: accept iff the
raw BPM lies within ±10% of the reference, or within 10% of the harmonic
value of `2·reference`, `reference/2`, or `3·reference`. -/
def specAcceptC2 (ref raw : ℚ) : Prop :=
  |raw - ref| ≤ ref / 10 ∨ |raw - 2 * ref| ≤ 2 * ref / 10 ∨
    |raw - ref / 2| ≤ (ref / 2) / 10 ∨ |raw - 3 * ref| ≤ 3 * ref / 10

instance (ref raw : ℚ) : Decidable (specAcceptC2 ref raw) := by
  unfold specAcceptC2; infer_instance

/-- Claim-side definition for C4, following the claim's words: scan the three
integer lags around `l0/2` and adopt the best exactly when its correlation
exceeds `0.5·r0` (and `l0/2 ≥ min_lag`); then scan around `l0/3` and adopt
the best exactly when its correlation exceeds `0.6·r0` (and `l0/3 ≥ min_lag`),
the third-lag decision overriding the half-lag one. -/
def specHarmonicsC4 (v : List ℚ) (l0 : ℕ) (r0 : ℚ) (minLag : ℕ) : ℕ :=
  let afterHalf :=
    if minLag ≤ l0 / 2 then
      let h := Old.scanThree v (l0 / 2)
      if h.2 > r0 * (1 / 2) then h.1 else l0
    else l0
  if minLag ≤ l0 / 3 then
    let t := Old.scanThree v (l0 / 3)
    if t.2 > r0 * (3 / 5) then t.1 else afterHalf
  else afterHalf

/-- The spec's `E_hist = (Σ_{i<k} v[i]²) / max(1,k)`. -/
def specEhist (v : List ℚ) (k : ℕ) : ℚ :=
  (∑ i in Finset.range k, v.getD i 0 * v.getD i 0) / ((max 1 k : ℕ) : ℚ)

/-- The spec's `E_recent = (Σ_{i≥k} v[i]²) / max(1,N-k)`. -/
def specErecent (v : List ℚ) (k : ℕ) : ℚ :=
  (∑ i in Finset.Ico k v.length, v.getD i 0 * v.getD i 0) / ((max 1 (v.length - k) : ℕ) : ℚ)

/-- Claim-side definition for C5, following the claim's words: split at
`k = 3N/4`; drop iff `E_recent > 1.5·E_hist` and `E_recent > 0.01` and the
fine confidence exceeds 0.5. -/
def specDropC5 (v : List ℚ) (confidence : ℚ) : Prop :=
  let k := 3 * v.length / 4
  specErecent v k > (3 / 2) * specEhist v k ∧ specErecent v k > 1 / 100 ∧ confidence > 1 / 2

instance (v : List ℚ) (confidence : ℚ) : Decidable (specDropC5 v confidence) := by
  unfold specDropC5; infer_instance

/-- Claim-side definition for C8, following the claim's words: beat offset
`(N-1-p)/fine_rate` where `p` is the argmax index of the fine window, the
search restricted to the most recent 25% when the batch is a drop. -/
def specBeatOffsetC8 (v : List ℚ) (fineRate : ℚ) (isDrop : Bool) : ℚ :=
  let startIdx := if isDrop then v.length * 3 / 4 else 0
  ((v.length - 1 - argmaxIdx v startIdx : ℕ) : ℚ) / fineRate

/-- Claim-side confidence of C7 on the smoothed search: the confidence the
source computes for the winning smoothed lag. -/
def specConfC7 (v : List ℚ) (energy : ℚ) (minLag maxLag : ℕ) : ℚ :=
  if 0 < energy then (NewA.searchBest v minLag maxLag).2 / energy else 0

end BpmSpec

namespace BpmSpec.Wit

/-- Concrete counterexample signal for C4: impulses of height 1 with period 6
and of height 1/5 with period 3, 24 samples. -/
def vC4 : List ℚ :=
  [1, 0, 0, 1 / 5, 0, 0, 1, 0, 0, 1 / 5, 0, 0, 1, 0, 0, 1 / 5, 0, 0, 1, 0, 0, 1 / 5, 0, 0]

/-- Identity biquad section (unit passthrough, zero state). -/
def idBq : NewA.Biquad := ⟨1, 0, 0, 0, 0, 0, 0⟩

/-- Concrete fine window: impulse train of period 4, 8 samples. -/
def fineP : List ℚ := [1, 0, 0, 0, 1, 0, 0, 0]

/-- Concrete coarse window: impulse train of period 2, 4 samples. -/
def coarseP : List ℚ := [1, 0, 1, 0]

/-- Concrete state of the newer analyser with full buffers holding periodic
impulse trains, permissive (caller-chosen) confidence thresholds, and an
empty history. -/
def S0 : NewA.State :=
  { fineC := { buffer := fineP, capacity := 8, rate := 27, step := 1, minLag := 1, maxLag := 7 }
  , coarseC := { buffer := coarseP, capacity := 4, rate := 27 / 2, step := 2, minLag := 2,
                 maxLag := 3 }
  , rawC := { buffer := [1, 1, 1, 1], capacity := 4, rate := 27, step := 1, minLag := 1,
              maxLag := 7 }
  , filter := [idBq]
  , history := []
  , fineThr := 1 / 100
  , coarseThr := 1 / 100
  , hop := 1 }

/-- Variant of `S0` whose buffers are one sample short of the periodic
patterns, so that pushing a single zero sample reproduces them. -/
def S1 : NewA.State :=
  { S0 with
    fineC := { S0.fineC with buffer := [0, 1, 0, 0, 0, 1, 0, 0] }
    coarseC := { S0.coarseC with buffer := [0, 1, 0, 1] } }

/-- The analysis result the newer analyser returns on `S0` with an empty
batch: an accepted non-drop estimate with no beat offset. -/
def R0 : NewA.Result := ⟨240, false, 1 / 8, 1 / 2, none⟩

/-- The front-end outcome of the `S1` run (one zero sample pushed). -/
def FO1 : NewA.FrontOut := ⟨240, 1 / 8, 1 / 2, false⟩

/-- Concrete state of the reference-lock analyser used for the C3
counterexample: locked reference 120, one history entry at time 0. -/
def sC3 : Old.State := ⟨[⟨120, 1, 0⟩], 0, 120, 1⟩

/-- Concrete five-entry history state used for the C9 eviction witness. -/
def sC9 : Old.State :=
  ⟨[⟨100, 1, 1⟩, ⟨101, 1, 2⟩, ⟨102, 1, 3⟩, ⟨103, 1, 4⟩, ⟨104, 1, 5⟩], 5, 100, 1⟩

/-- Small state of the newer analyser with an under-filled coarse buffer. -/
def sC6 : NewA.State :=
  { fineC := { buffer := [], capacity := 4, rate := 48, step := 1, minLag := 1, maxLag := 3 }
  , coarseC := { buffer := [], capacity := 4, rate := 3, step := 2, minLag := 1, maxLag := 3 }
  , rawC := { buffer := [], capacity := 4, rate := 48, step := 1, minLag := 1, maxLag := 3 }
  , filter := [idBq]
  , history := []
  , fineThr := 1 / 100
  , coarseThr := 1 / 100
  , hop := 1 }

/-- Concrete fine window of the reference-lock analyser for C6: 32 samples
with unit impulses at indices 8 and 24 (period 16). -/
def fineC6 : List ℚ :=
  [0, 0, 0, 0, 0, 0, 0, 0, 1, 0, 0, 0, 0, 0, 0, 0,
   0, 0, 0, 0, 0, 0, 0, 0, 1, 0, 0, 0, 0, 0, 0, 0]

/-- Concrete coarse window of the reference-lock analyser for C6: 16 samples
with unit impulses at indices 0 and 8 (period 8). -/
def coarseC6 : List ℚ :=
  [1, 0, 0, 0, 0, 0, 0, 0, 1, 0, 0, 0, 0, 0, 0, 0]

/-- Reference-lock analyser state for C6: coarse rate 8 and fine rate 16, so
the constructor capacities are `⌊16·4⌋ = 64` (fine) and `⌊8·4⌋ = 32`
(coarse) while the two-second gate of line 173 asks only for
`⌊8·2⌋ = 16` coarse samples; the coarse buffer holds exactly 16 — half its
capacity.  The thresholds 0.3 and 0.4 are the constructor's. -/
def sC6full : Old.FullState :=
  { fineBuffer := fineC6, fineCapacity := 64,
    coarseBuffer := coarseC6, coarseCapacity := 32,
    fineRate := 16, coarseRate := 8, fineStep := 2, coarseStep := 2,
    filter1 := idBq, filter2 := idBq,
    minConfidence := 3 / 10, minCoarseConfidence := 2 / 5,
    smoothing := Old.init 0 }

/-- Variant of `sC6full` with empty buffers, for the gate witness. -/
def sC6empty : Old.FullState :=
  { sC6full with fineBuffer := [], coarseBuffer := [] }

end BpmSpec.Wit

namespace BpmSpec.Old

/-- Invariant of the bounded history of the reference-lock analyser: at most
5 entries, timestamps strictly increasing from oldest to newest, and every
timestamp at most the last-detection time. -/
def histInv (s : State) : Prop :=
  s.history.length ≤ 5 ∧
  List.Chain' (· < ·) (s.history.map HistEntry.timestamp) ∧
  ∀ e ∈ s.history, e.timestamp ≤ s.lastDetectionTime

end BpmSpec.Old

namespace BpmSpec

theorem scanStep_le (f : ℕ → ℚ) (b : ℕ × ℚ) (lag : ℕ) : b.2 ≤ (scanStep f b lag).2 := by
  unfold scanStep
  split
  · exact le_of_lt (by assumption)
  · exact le_refl _

theorem foldl_scanStep_mono (f : ℕ → ℚ) (L : List ℕ) (acc : ℕ × ℚ) :
    acc.2 ≤ (L.foldl (scanStep f) acc).2 := by
  induction L generalizing acc with
  | nil => exact le_refl _
  | cons l L ih =>
    simp only [List.foldl_cons]
    exact le_trans (scanStep_le f acc l) (ih (scanStep f acc l))

theorem foldl_scanStep_pos (f : ℕ → ℚ) (L : List ℕ) (acc : ℕ × ℚ) (l : ℕ)
    (hl : l ∈ L) (hf : 0 < f l) : 0 < (L.foldl (scanStep f) acc).2 := by
  induction L generalizing acc with
  | nil => cases hl
  | cons a L ih =>
    simp only [List.foldl_cons]
    rcases List.mem_cons.mp hl with h | h
    · subst h
      refine lt_of_lt_of_le ?_ (foldl_scanStep_mono f L (scanStep f acc l))
      unfold scanStep
      split
      · exact hf
      · exact lt_of_lt_of_le hf (le_of_not_lt (by assumption))
    · exact ih (scanStep f acc a) h

theorem foldl_scanStep_cases (f : ℕ → ℚ) (L : List ℕ) (acc : ℕ × ℚ) (hacc : 0 ≤ acc.2) :
    L.foldl (scanStep f) acc = acc ∨
      ((L.foldl (scanStep f) acc).2 = f (L.foldl (scanStep f) acc).1 ∧
        (L.foldl (scanStep f) acc).1 ∈ L ∧ 0 < (L.foldl (scanStep f) acc).2) := by
  induction L generalizing acc with
  | nil => exact Or.inl rfl
  | cons l L ih =>
    simp only [List.foldl_cons]
    by_cases hupd : f l > acc.2
    · have hstep : scanStep f acc l = (l, f l) := by unfold scanStep; exact if_pos hupd
      rw [hstep]
      have hpos : (0 : ℚ) ≤ (l, f l).2 := le_of_lt (lt_of_le_of_lt hacc hupd)
      rcases ih (l, f l) hpos with h | h
      · right
        rw [h]
        exact ⟨rfl, List.mem_cons_self _ _, lt_of_le_of_lt hacc hupd⟩
      · right
        exact ⟨h.1, List.mem_cons_of_mem _ h.2.1, h.2.2⟩
    · have hstep : scanStep f acc l = acc := by unfold scanStep; exact if_neg hupd
      rw [hstep]
      rcases ih acc hacc with h | h
      · exact Or.inl h
      · exact Or.inr ⟨h.1, List.mem_cons_of_mem _ h.2.1, h.2.2⟩

theorem scanFold_cases (f : ℕ → ℚ) (L : List ℕ) :
    scanFold f L = (0, 0) ∨
      ((scanFold f L).2 = f (scanFold f L).1 ∧ (scanFold f L).1 ∈ L ∧ 0 < (scanFold f L).2) :=
  foldl_scanStep_cases f L (0, 0) (le_refl 0)

theorem scanFold_fst_eq_zero_iff (f : ℕ → ℚ) (L : List ℕ) (h0 : 0 ∉ L) :
    (scanFold f L).1 = 0 ↔ ∀ l ∈ L, f l ≤ 0 := by
  constructor
  · intro hz l hl
    by_contra hpos
    push_neg at hpos
    have h2 : 0 < (scanFold f L).2 := foldl_scanStep_pos f L (0, 0) l hl hpos
    rcases scanFold_cases f L with h | h
    · rw [h] at h2
      norm_num at h2
    · exact h0 (hz ▸ h.2.1)
  · intro hle
    rcases scanFold_cases f L with h | h
    · rw [h]
    · exact absurd (lt_of_lt_of_le h.2.2 (h.1 ▸ hle _ h.2.1)) (lt_irrefl 0)

theorem scanFold_of_fst_ne_zero (f : ℕ → ℚ) (L : List ℕ) (h : (scanFold f L).1 ≠ 0) :
    (scanFold f L).2 = f (scanFold f L).1 ∧ (scanFold f L).1 ∈ L ∧ 0 < (scanFold f L).2 := by
  rcases scanFold_cases f L with hc | hc
  · exact absurd (by rw [hc]) h
  · exact hc

theorem sum_map_sq_take (v : List ℚ) (k : ℕ) :
    ((v.take k).map (fun x => x * x)).sum = ∑ i in Finset.range k, v.getD i 0 * v.getD i 0 := by
  induction v generalizing k with
  | nil => simp
  | cons x xs ih =>
    cases k with
    | zero => simp
    | succ k =>
      rw [Finset.sum_range_succ']
      simp only [List.take_succ_cons, List.map_cons, List.sum_cons, List.getD_cons_succ,
        List.getD_cons_zero]
      rw [ih k]
      ring

theorem sum_map_sq_drop (v : List ℚ) (k : ℕ) :
    ((v.drop k).map (fun x => x * x)).sum =
      ∑ i in Finset.Ico k v.length, v.getD i 0 * v.getD i 0 := by
  induction v generalizing k with
  | nil => simp
  | cons x xs ih =>
    cases k with
    | zero =>
      have htake : ((x :: xs).take (x :: xs).length).map (fun y => y * y) =
          (x :: xs).map (fun y => y * y) := by rw [List.take_length]
      have h := sum_map_sq_take (x :: xs) (x :: xs).length
      rw [htake] at h
      rw [List.drop_zero, h, Finset.range_eq_Ico]
    | succ k =>
      simp only [List.drop_succ_cons, List.length_cons]
      rw [ih k]
      rw [Finset.sum_Ico_eq_sum_range, Finset.sum_Ico_eq_sum_range]
      have hlen : xs.length - k = xs.length + 1 - (k + 1) := by omega
      rw [← hlen]
      refine Finset.sum_congr rfl ?_
      intro i _
      have : k + 1 + i = (k + i) + 1 := by omega
      rw [this, List.getD_cons_succ]

end BpmSpec

namespace BpmSpec.Old

theorem processUpdate_early (s : State) (now : ℚ) :
    processUpdate s now Input.earlyReject = (s, none) := rfl

theorem processUpdate_full_drop (s : State) (now raw e : ℚ) :
    processUpdate s now (Input.full raw true e) =
      if adaptiveGateRejects (silenceReset s now) e then (silenceReset s now, none)
      else commit { silenceReset s now with referenceBpm := raw } now raw e true := rfl

theorem processUpdate_full_nondrop (s : State) (now raw e : ℚ) :
    processUpdate s now (Input.full raw false e) =
      if adaptiveGateRejects (silenceReset s now) e then (silenceReset s now, none)
      else if 0 < (silenceReset s now).referenceBpm then
        if referenceAccept (silenceReset s now).referenceBpm raw then
          commit (silenceReset s now) now raw e false
        else (silenceReset s now, none)
      else (silenceReset s now, none) := rfl

theorem silenceReset_last (s : State) (now : ℚ) :
    (silenceReset s now).lastDetectionTime = s.lastDetectionTime := by
  unfold silenceReset
  split <;> rfl

theorem silenceReset_of_le (s : State) (now : ℚ) (h : now - s.lastDetectionTime ≤ 10) :
    silenceReset s now = s := by
  unfold silenceReset
  exact if_neg (not_lt.mpr h)

theorem silenceReset_of_gt (s : State) (now : ℚ) (h : 10 < now - s.lastDetectionTime) :
    silenceReset s now = { s with history := [], referenceBpm := 0 } := by
  unfold silenceReset
  exact if_pos h

theorem silenceReset_ref (s : State) (now : ℚ) :
    (silenceReset s now).referenceBpm = s.referenceBpm ∨
      (silenceReset s now).referenceBpm = 0 := by
  unfold silenceReset
  split
  · exact Or.inr rfl
  · exact Or.inl rfl

theorem commit_ref (s : State) (now rawBpm energyMean : ℚ) (isDrop : Bool) :
    (commit s now rawBpm energyMean isDrop).1.referenceBpm = s.referenceBpm := rfl

theorem commit_last (s : State) (now rawBpm energyMean : ℚ) (isDrop : Bool) :
    (commit s now rawBpm energyMean isDrop).1.lastDetectionTime = now := rfl

theorem commit_hist (s : State) (now rawBpm energyMean : ℚ) (isDrop : Bool) :
    (commit s now rawBpm energyMean isDrop).1.history =
      (if 5 ≤ s.history.length then s.history.tail else s.history) ++
        [⟨rawBpm, energyMean, now⟩] := rfl

theorem commit_snd (s : State) (now rawBpm energyMean : ℚ) (isDrop : Bool) :
    ∃ r : Result, (commit s now rawBpm energyMean isDrop).2 = some r ∧ r.isDrop = isDrop :=
  ⟨_, rfl, rfl⟩

theorem gate_of_empty (s : State) (e : ℚ) (h : s.history = []) :
    adaptiveGateRejects s e = false := by
  unfold adaptiveGateRejects
  simp [h]

theorem processUpdate_full_zero_ref (s : State) (now raw e : ℚ)
    (h : s.referenceBpm = 0) :
    (processUpdate s now (Input.full raw false e)).2 = none ∧
      (processUpdate s now (Input.full raw false e)).1.referenceBpm = 0 := by
  have hs1 : (silenceReset s now).referenceBpm = 0 := by
    rcases silenceReset_ref s now with hr | hr
    · rw [hr, h]
    · exact hr
  rw [processUpdate_full_nondrop]
  by_cases hg : adaptiveGateRejects (silenceReset s now) e = true
  · rw [if_pos hg]
    exact ⟨rfl, hs1⟩
  · rw [if_neg hg, if_neg (by rw [hs1]; exact lt_irrefl 0)]
    exact ⟨rfl, hs1⟩

end BpmSpec.Old

namespace BpmSpec

open BpmSpec.Old

/-- Claim C1: on the reference-lock analyser, the reference tempo is 0 from
construction until the first accepted drop batch; while the reference is 0
every non-drop batch is rejected (whatever its confidence, which the lock
stage never reads); an accepted drop with a positive raw BPM leaves the
reference strictly positive, and it stays strictly positive across any call
made within 10 s of the last accepted estimate; a batch reaching the lock
stage more than 10 s after the last accepted estimate finds the reference
cleared to 0, and if it is not itself a drop it is rejected with the
reference left at 0. -/
theorem C1_reference_lifecycle :
    (∀ t0 : ℚ, (Old.init t0).referenceBpm = 0) ∧
    (∀ (s : Old.State) (now raw e : ℚ), s.referenceBpm = 0 →
      (Old.processUpdate s now (Old.Input.full raw false e)).2 = none ∧
        (Old.processUpdate s now (Old.Input.full raw false e)).1.referenceBpm = 0) ∧
    (∀ (s : Old.State) (now raw e : ℚ), 0 < raw →
      (Old.processUpdate s now (Old.Input.full raw true e)).2.isSome = true →
        0 < (Old.processUpdate s now (Old.Input.full raw true e)).1.referenceBpm) ∧
    (∀ (s : Old.State) (now : ℚ) (inp : Old.Input), 0 < s.referenceBpm →
      now - s.lastDetectionTime ≤ 10 →
      (match inp with | Old.Input.full raw true _ => 0 < raw | _ => True) →
        0 < (Old.processUpdate s now inp).1.referenceBpm) ∧
    (∀ (s : Old.State) (now raw e : ℚ), 10 < now - s.lastDetectionTime →
      (Old.processUpdate s now (Old.Input.full raw false e)).1.referenceBpm = 0 ∧
        (Old.processUpdate s now (Old.Input.full raw false e)).2 = none) ∧
    (∀ (t0 : ℚ) (tr : List (ℚ × Old.Input)), Old.noAcceptedDrop (Old.init t0) tr = true →
      (Old.run (Old.init t0) tr).referenceBpm = 0) := by
  refine ⟨fun _ => rfl, ?_, ?_, ?_, ?_, ?_⟩
  · intro s now raw e h
    exact processUpdate_full_zero_ref s now raw e h
  · intro s now raw e hraw hsome
    rw [processUpdate_full_drop] at hsome ⊢
    by_cases hg : adaptiveGateRejects (silenceReset s now) e = true
    · rw [if_pos hg] at hsome
      simp at hsome
    · rw [if_neg hg]
      rw [commit_ref]
      exact hraw
  · intro s now inp href hle hpos
    have hs1 : silenceReset s now = s := silenceReset_of_le s now hle
    cases inp with
    | earlyReject =>
      rw [processUpdate_early]
      exact href
    | full raw d e =>
      cases d with
      | true =>
        rw [processUpdate_full_drop, hs1]
        by_cases hg : adaptiveGateRejects s e = true
        · rw [if_pos hg]
          exact href
        · rw [if_neg hg, commit_ref]
          exact hpos
      | false =>
        rw [processUpdate_full_nondrop, hs1]
        by_cases hg : adaptiveGateRejects s e = true
        · rw [if_pos hg]
          exact href
        · rw [if_neg hg, if_pos href]
          by_cases hacc : referenceAccept s.referenceBpm raw = true
          · rw [if_pos hacc, commit_ref]
            exact href
          · rw [if_neg hacc]
            exact href
  · intro s now raw e hgt
    have hreset := silenceReset_of_gt s now hgt
    have hgate : adaptiveGateRejects (silenceReset s now) e = false :=
      gate_of_empty _ e (by rw [hreset])
    rw [processUpdate_full_nondrop, hgate]
    rw [if_neg (by simp)]
    rw [if_neg (by rw [hreset]; norm_num)]
    rw [hreset]
    exact ⟨rfl, rfl⟩
  · intro t0 tr h
    have key : ∀ (tr : List (ℚ × Old.Input)) (s : Old.State), s.referenceBpm = 0 →
        Old.noAcceptedDrop s tr = true → (Old.run s tr).referenceBpm = 0 := by
      intro tr
      induction tr with
      | nil =>
        intro s h0 _
        exact h0
      | cons p rest ih =>
        intro s h0 hnd
        obtain ⟨t, i⟩ := p
        unfold Old.noAcceptedDrop at hnd
        rw [Bool.and_eq_true, Bool.not_eq_true'] at hnd
        obtain ⟨hnod, hrest⟩ := hnd
        unfold Old.run
        refine ih (Old.processUpdate s t i).1 ?_ hrest
        have hs1ref : (silenceReset s t).referenceBpm = 0 := by
          rcases silenceReset_ref s t with hr | hr
          · rw [hr, h0]
          · exact hr
        cases i with
        | earlyReject =>
          rw [processUpdate_early]
          exact h0
        | full raw d e =>
          cases d with
          | false => exact (processUpdate_full_zero_ref s t raw e h0).2
          | true =>
            unfold Old.acceptsDrop at hnod
            rw [processUpdate_full_drop] at hnod ⊢
            by_cases hg : adaptiveGateRejects (silenceReset s t) e = true
            · rw [if_pos hg]
              exact hs1ref
            · exfalso
              rw [if_neg hg] at hnod
              obtain ⟨r, hr, hrd⟩ :=
                commit_snd { silenceReset s t with referenceBpm := raw } t raw e true
              rw [hr] at hnod
              simp only at hnod
              rw [hrd] at hnod
              exact Bool.true_eq_false.mp hnod
    exact key tr (Old.init t0) rfl h

end BpmSpec

namespace BpmSpec.Old

theorem commit_isSome (s : State) (now rawBpm energyMean : ℚ) (isDrop : Bool) :
    (commit s now rawBpm energyMean isDrop).2.isSome = true := rfl

theorem checkHarmonics_eq (v : List ℚ) (l0 : ℕ) (r0 : ℚ) (minLag : ℕ) :
    checkHarmonics v l0 r0 minLag =
      (if minLag ≤ l0 / 3 then
        (if (scanThree v (l0 / 3)).2 > r0 * (3 / 10) then (scanThree v (l0 / 3)).1
         else if minLag ≤ l0 / 2 then
           (if (scanThree v (l0 / 2)).2 > r0 * (2 / 5) then (scanThree v (l0 / 2)).1 else l0)
         else l0)
       else if minLag ≤ l0 / 2 then
         (if (scanThree v (l0 / 2)).2 > r0 * (2 / 5) then (scanThree v (l0 / 2)).1 else l0)
       else l0) := rfl

end BpmSpec.Old

namespace BpmSpec

open BpmSpec.Old

/-- Witness for C1 at concrete inputs: a non-drop batch on the fresh analyser
is rejected; a drop on an unlocked state locks a positive reference; a locked
reference survives an early-rejected call; a non-drop batch 20 s after the
last detection finds the reference cleared; a trace without accepted drops
keeps the reference at 0. -/
theorem C1_reference_lifecycle_witness :
    ((Old.processUpdate (Old.init 0) 1 (Old.Input.full 120 false 1)).2 = none) ∧
    (0 < (Old.processUpdate ⟨[], 0, 0, 0⟩ 1 (Old.Input.full 120 true 1)).1.referenceBpm) ∧
    (0 < (Old.processUpdate ⟨[], 0, 100, 0⟩ 1 Old.Input.earlyReject).1.referenceBpm) ∧
    ((Old.processUpdate ⟨[], 0, 100, 0⟩ 20 (Old.Input.full 150 false 1)).1.referenceBpm = 0) ∧
    ((Old.run (Old.init 0) [(1, Old.Input.earlyReject)]).referenceBpm = 0) :=
  ⟨(C1_reference_lifecycle.2.1 (Old.init 0) 1 120 1 rfl).1,
   C1_reference_lifecycle.2.2.1 ⟨[], 0, 0, 0⟩ 1 120 1 (by norm_num)
     (by norm_num [Old.processUpdate, Old.silenceReset, Old.adaptiveGateRejects, Old.commit]),
   C1_reference_lifecycle.2.2.2.1 ⟨[], 0, 100, 0⟩ 1 Old.Input.earlyReject (by norm_num)
     (by norm_num) trivial,
   (C1_reference_lifecycle.2.2.2.2.1 ⟨[], 0, 100, 0⟩ 20 150 1 (by norm_num)).1,
   C1_reference_lifecycle.2.2.2.2.2 0 [(1, Old.Input.earlyReject)]
     (by norm_num [Old.noAcceptedDrop, Old.acceptsDrop, Old.processUpdate_early, Old.init])⟩

/-- Claim C2 counterexample: with reference 100 and raw BPM 210, the claim
(tolerance 10% of the harmonic value, so 210 ∈ [180, 220] around 2·100)
accepts, but the source (tolerance `test_ref/2 = 5`) rejects. -/
theorem C2_counterexample :
    Old.referenceAccept 100 210 = false ∧ specAcceptC2 100 210 := by
  constructor
  · norm_num [Old.referenceAccept, Bool.or_eq_false_iff, decide_eq_false_iff_not, abs_le]
  · norm_num [specAcceptC2, abs_le]

/-- Claim C2 (amended): while locked and with no drop, the raw BPM is accepted
iff it is within `ref/10` of the reference, within `ref/20` of `2·ref`,
within `ref/5` of `ref/2`, or within `ref/30` of `3·ref` — the harmonic
tolerances are `test_ref/2`, `test_ref·2` and `test_ref/3`, not 10% of the
harmonic value. -/
theorem C2_tolerances_amended :
    (∀ ref raw : ℚ, Old.referenceAccept ref raw = true ↔
      (|raw - ref| ≤ ref / 10 ∨ |raw - 2 * ref| ≤ ref / 20 ∨
        |raw - ref / 2| ≤ ref / 5 ∨ |raw - 3 * ref| ≤ ref / 30)) ∧
    (∀ (s : Old.State) (now raw e : ℚ), 0 < s.referenceBpm →
      now - s.lastDetectionTime ≤ 10 → Old.adaptiveGateRejects s e = false →
      (Old.processUpdate s now (Old.Input.full raw false e)).2.isSome =
        Old.referenceAccept s.referenceBpm raw) := by
  constructor
  · intro ref raw
    simp only [Old.referenceAccept, Bool.or_eq_true, decide_eq_true_eq]
    rw [show ref * (1 / 10) = ref / 10 from by ring]
    rw [show ref / 10 / 2 = ref / 20 from by ring]
    rw [show ref / 10 * 2 = ref / 5 from by ring]
    rw [show ref / 10 / 3 = ref / 30 from by ring]
    rw [mul_comm ref 2, mul_comm ref 3]
    tauto
  · intro s now raw e href hle hgate
    have hs1 : silenceReset s now = s := silenceReset_of_le s now hle
    rw [processUpdate_full_nondrop, hs1, hgate]
    rw [if_neg (by simp), if_pos href]
    by_cases hacc : referenceAccept s.referenceBpm raw = true
    · rw [if_pos hacc, hacc, commit_isSome]
    · have hacc2 : referenceAccept s.referenceBpm raw = false := by
        exact Bool.eq_false_iff.mpr hacc
      rw [if_neg hacc, hacc2]
      rfl

/-- Witness for the amended C2 at a concrete locked state: a raw BPM equal to
the reference is accepted. -/
theorem C2_tolerances_amended_witness :
    (Old.processUpdate ⟨[], 0, 100, 0⟩ 1 (Old.Input.full 100 false 1)).2.isSome =
      Old.referenceAccept 100 100 :=
  C2_tolerances_amended.2 ⟨[], 0, 100, 0⟩ 1 100 1 (by norm_num) (by norm_num)
    (by norm_num [Old.adaptiveGateRejects])

/-- Claim C3 counterexample: a call 11 s after the last accepted estimate
whose batch is then rejected by the reference lock still clears the history
and the reference, so a no-estimate call changed both. -/
theorem C3_counterexample :
    (Old.processUpdate Wit.sC3 11 (Old.Input.full 130 false 1)).2 = none ∧
    (Old.processUpdate Wit.sC3 11 (Old.Input.full 130 false 1)).1.referenceBpm ≠
      Wit.sC3.referenceBpm ∧
    (Old.processUpdate Wit.sC3 11 (Old.Input.full 130 false 1)).1.history ≠
      Wit.sC3.history := by
  refine ⟨?_, ?_, ?_⟩ <;>
    norm_num [Old.processUpdate, Old.silenceReset, Old.adaptiveGateRejects, Wit.sC3]

/-- Claim C3 (amended): a call returning no estimate never changes the
last-accepted timestamp, and leaves the reference and history unchanged
except that, when more than 10 s have elapsed since the last accepted
estimate, the silence reset may have cleared the history and the reference
before the rejection. -/
theorem C3_noestimate_amended :
    ∀ (s : Old.State) (now : ℚ) (inp : Old.Input),
      (Old.processUpdate s now inp).2 = none →
      (Old.processUpdate s now inp).1.lastDetectionTime = s.lastDetectionTime ∧
      (((Old.processUpdate s now inp).1.history = s.history ∧
          (Old.processUpdate s now inp).1.referenceBpm = s.referenceBpm) ∨
        (10 < now - s.lastDetectionTime ∧ (Old.processUpdate s now inp).1.history = [] ∧
          (Old.processUpdate s now inp).1.referenceBpm = 0)) := by
  intro s now inp hnone
  have hstate : (Old.processUpdate s now inp).1 = silenceReset s now ∨
      (Old.processUpdate s now inp).1 = s := by
    cases inp with
    | earlyReject => exact Or.inr (by rw [processUpdate_early])
    | full raw d e =>
      cases d with
      | true =>
        rw [processUpdate_full_drop] at hnone ⊢
        by_cases hg : adaptiveGateRejects (silenceReset s now) e = true
        · rw [if_pos hg]
          exact Or.inl rfl
        · exfalso
          rw [if_neg hg] at hnone
          obtain ⟨r, hr, _⟩ := commit_snd { silenceReset s now with referenceBpm := raw }
            now raw e true
          rw [hr] at hnone
          exact Option.noConfusion hnone
      | false =>
        rw [processUpdate_full_nondrop] at hnone ⊢
        by_cases hg : adaptiveGateRejects (silenceReset s now) e = true
        · rw [if_pos hg]
          exact Or.inl rfl
        · rw [if_neg hg] at hnone ⊢
          by_cases hp : 0 < (silenceReset s now).referenceBpm
          · rw [if_pos hp] at hnone ⊢
            by_cases hacc : referenceAccept (silenceReset s now).referenceBpm raw = true
            · exfalso
              rw [if_pos hacc] at hnone
              obtain ⟨r, hr, _⟩ := commit_snd (silenceReset s now) now raw e false
              rw [hr] at hnone
              exact Option.noConfusion hnone
            · rw [if_neg hacc]
              exact Or.inl rfl
          · rw [if_neg hp]
            exact Or.inl rfl
  rcases hstate with hst | hst
  · rw [hst]
    by_cases ht : 10 < now - s.lastDetectionTime
    · rw [silenceReset_of_gt s now ht]
      exact ⟨rfl, Or.inr ⟨ht, rfl, rfl⟩⟩
    · rw [silenceReset_of_le s now (not_lt.mp ht)]
      exact ⟨rfl, Or.inl ⟨rfl, rfl⟩⟩
  · rw [hst]
    exact ⟨rfl, Or.inl ⟨rfl, rfl⟩⟩

/-- Witness for the amended C3 at a concrete early-rejected call. -/
theorem C3_noestimate_amended_witness :
    (Old.processUpdate (Old.init 0) 1 Old.Input.earlyReject).1.lastDetectionTime =
      (Old.init 0).lastDetectionTime :=
  (C3_noestimate_amended (Old.init 0) 1 Old.Input.earlyReject rfl).1

/-- Claim C4 counterexample: on the 24-sample signal `vC4` the coarse search
returns lag 6 with correlation 78/25; the half-lag neighbourhood peaks at lag
3 with correlation 7/5, which is below the claimed `0.5·r0` and `0.6·r0`
thresholds (so the claim keeps lag 6) but above the source's `0.4·r0` and
`0.3·r0` thresholds, so the source adopts lag 3. -/
theorem C4_counterexample :
    Old.coarseSearch Wit.vC4 2 8 = (6, 78 / 25) ∧
    Old.checkHarmonics Wit.vC4 6 (78 / 25) 2 = 3 ∧
    specHarmonicsC4 Wit.vC4 6 (78 / 25) 2 = 6 := by
  refine ⟨?_, ?_, ?_⟩
  · norm_num [Old.coarseSearch, scanFold, scanStep, corrAt, Wit.vC4, List.range']
  · norm_num [Old.checkHarmonics, Old.scanThree, scanFold, scanStep, corrAt, Wit.vC4]
  · norm_num [specHarmonicsC4, Old.scanThree, scanFold, scanStep, corrAt, Wit.vC4]

/-- Claim C4 (amended): the octave corrector scans the three integer lags
around `l0/2` and adopts the best of them exactly when its correlation
exceeds `0.4·r0` and `l0/2 ≥ min_lag`; it then scans around `l0/3` and
adopts the best of them exactly when its correlation exceeds `0.3·r0` and
`l0/3 ≥ min_lag`, the third-lag decision overriding the half-lag one. -/
theorem C4_octave_amended :
    ∀ (v : List ℚ) (l0 : ℕ) (r0 : ℚ) (minLag : ℕ),
      (minLag ≤ l0 / 3 ∧ r0 * (3 / 10) < (Old.scanThree v (l0 / 3)).2 →
        Old.checkHarmonics v l0 r0 minLag = (Old.scanThree v (l0 / 3)).1) ∧
      (¬(minLag ≤ l0 / 3 ∧ r0 * (3 / 10) < (Old.scanThree v (l0 / 3)).2) →
        minLag ≤ l0 / 2 ∧ r0 * (2 / 5) < (Old.scanThree v (l0 / 2)).2 →
        Old.checkHarmonics v l0 r0 minLag = (Old.scanThree v (l0 / 2)).1) ∧
      (¬(minLag ≤ l0 / 3 ∧ r0 * (3 / 10) < (Old.scanThree v (l0 / 3)).2) →
        ¬(minLag ≤ l0 / 2 ∧ r0 * (2 / 5) < (Old.scanThree v (l0 / 2)).2) →
        Old.checkHarmonics v l0 r0 minLag = l0) := by
  intro v l0 r0 minLag
  rw [checkHarmonics_eq]
  refine ⟨?_, ?_, ?_⟩
  · rintro ⟨h1, h2⟩
    rw [if_pos h1, if_pos h2]
  · intro hn h2
    by_cases hc3 : minLag ≤ l0 / 3
    · have hT : ¬ (Old.scanThree v (l0 / 3)).2 > r0 * (3 / 10) := fun hT => hn ⟨hc3, hT⟩
      rw [if_pos hc3, if_neg hT, if_pos h2.1, if_pos h2.2]
    · rw [if_neg hc3, if_pos h2.1, if_pos h2.2]
  · intro hn3 hn2
    by_cases hc3 : minLag ≤ l0 / 3
    · have hT : ¬ (Old.scanThree v (l0 / 3)).2 > r0 * (3 / 10) := fun hT => hn3 ⟨hc3, hT⟩
      rw [if_pos hc3, if_neg hT]
      by_cases hc2 : minLag ≤ l0 / 2
      · have hH : ¬ (Old.scanThree v (l0 / 2)).2 > r0 * (2 / 5) := fun hH => hn2 ⟨hc2, hH⟩
        rw [if_pos hc2, if_neg hH]
      · rw [if_neg hc2]
    · rw [if_neg hc3]
      by_cases hc2 : minLag ≤ l0 / 2
      · have hH : ¬ (Old.scanThree v (l0 / 2)).2 > r0 * (2 / 5) := fun hH => hn2 ⟨hc2, hH⟩
        rw [if_pos hc2, if_neg hH]
      · rw [if_neg hc2]

/-- Witness for the amended C4: on `vC4` the third-lag condition holds with
the source's `0.3·r0` threshold and the corrector returns the third-lag
neighbourhood winner. -/
theorem C4_octave_amended_witness :
    Old.checkHarmonics Wit.vC4 6 (78 / 25) 2 = (Old.scanThree Wit.vC4 2).1 :=
  (C4_octave_amended Wit.vC4 6 (78 / 25) 2).1
    ⟨by norm_num, by norm_num [Old.scanThree, scanFold, scanStep, corrAt, Wit.vC4]⟩

/-- Claim C5 counterexample: on the peak-normalised 4-sample window
`[10/11, 10/11, 10/11, 1]` with fine confidence 1, the recent-quarter energy
is 1 and the history energy is 100/121, a ratio of 1.21: the source declares
a drop (threshold 1.2) while the claim (threshold 1.5, confidence above 0.5
required) does not. -/
theorem C5_counterexample :
    Old.checkDropWindow [10 / 11, 10 / 11, 10 / 11, 1] = true ∧
    ¬ specDropC5 [10 / 11, 10 / 11, 10 / 11, 1] 1 := by
  constructor
  · norm_num [Old.checkDropWindow]
  · norm_num [specDropC5, specErecent, specEhist, Finset.sum_Ico_eq_sum_range,
      Finset.sum_range_succ, List.getD, List.getElem?_cons_succ, List.getElem?_cons_zero]

/-- Claim C5 (amended): on the peak-normalised fine window of length `N`,
split at `k = 3N/4`, the source declares a drop iff
`E_recent > 1.2 · E_hist` and `E_recent > 0.01`; the fine confidence plays
no role in the drop decision of this analyser. -/
theorem C5_drop_amended :
    ∀ v : List ℚ, Old.checkDropWindow v = true ↔
      (specErecent v (3 * v.length / 4) > specEhist v (3 * v.length / 4) * (6 / 5) ∧
        specErecent v (3 * v.length / 4) > 1 / 100) := by
  intro v
  have hk : v.length * 3 / 4 = 3 * v.length / 4 := by rw [Nat.mul_comm]
  simp only [Old.checkDropWindow, specEhist, specErecent, Bool.and_eq_true, decide_eq_true_eq]
  rw [hk, sum_map_sq_take v (3 * v.length / 4), sum_map_sq_drop v (3 * v.length / 4),
    Nat.max_comm (3 * v.length / 4) 1, Nat.max_comm (v.length - 3 * v.length / 4) 1]

end BpmSpec

namespace BpmSpec.Old

theorem map_ts_tail (l : List HistEntry) :
    l.tail.map HistEntry.timestamp = (l.map HistEntry.timestamp).tail := by
  cases l <;> rfl

theorem histInv_commit (s : State) (now raw e : ℚ) (d : Bool)
    (h : histInv s) (hlt : s.lastDetectionTime < now) :
    histInv (commit s now raw e d).1 ∧ (commit s now raw e d).1.lastDetectionTime = now := by
  obtain ⟨hlen, hchain, hle⟩ := h
  set hist1 := if 5 ≤ s.history.length then s.history.tail else s.history with hh1
  have hist1_sub : ∀ x ∈ hist1, x ∈ s.history := by
    intro x hx
    rw [hh1] at hx
    split at hx
    · exact List.mem_of_mem_tail hx
    · exact hx
  have hist1_len : hist1.length ≤ 4 := by
    rw [hh1]
    split
    · simp only [List.length_tail]
      omega
    · omega
  have hist1_chain : List.Chain' (· < ·) (hist1.map HistEntry.timestamp) := by
    rw [hh1]
    split
    · rw [map_ts_tail]
      exact hchain.tail
    · exact hchain
  refine ⟨⟨?_, ?_, ?_⟩, rfl⟩
  · have : (commit s now raw e d).1.history = hist1 ++ [⟨raw, e, now⟩] := commit_hist ..
    rw [this]
    simp only [List.length_append, List.length_singleton]
    omega
  · have : (commit s now raw e d).1.history = hist1 ++ [⟨raw, e, now⟩] := commit_hist ..
    rw [this, List.map_append]
    rw [List.chain'_append]
    refine ⟨hist1_chain, List.chain'_singleton _, ?_⟩
    intro x hx y hy
    simp only [List.map_cons, List.map_nil, List.head?_cons, Option.mem_def,
      Option.some.injEq] at hy
    subst hy
    obtain ⟨hne, hxl⟩ := List.mem_getLast?_eq_getLast hx
    have hxmem : x ∈ hist1.map HistEntry.timestamp := hxl ▸ List.getLast_mem hne
    obtain ⟨a, ha, hax⟩ := List.mem_map.mp hxmem
    have : a.timestamp ≤ s.lastDetectionTime := hle a (hist1_sub a ha)
    rw [← hax]
    exact lt_of_le_of_lt this hlt
  · intro x hx
    have hcomm : (commit s now raw e d).1.history = hist1 ++ [⟨raw, e, now⟩] := commit_hist ..
    rw [hcomm] at hx
    rw [commit_last]
    rcases List.mem_append.mp hx with hx | hx
    · exact le_of_lt (lt_of_le_of_lt (hle x (hist1_sub x hx)) hlt)
    · simp only [List.mem_singleton] at hx
      rw [hx]

theorem histInv_refset (s : State) (r : ℚ) (h : histInv s) :
    histInv { s with referenceBpm := r } := h

theorem histInv_silence (s : State) (now : ℚ) (h : histInv s) :
    histInv (silenceReset s now) := by
  unfold silenceReset
  split
  · exact ⟨by simp, by simp, by simp⟩
  · exact h

theorem histInv_step (s : State) (now : ℚ) (inp : Input)
    (h : histInv s) (hlt : s.lastDetectionTime < now) :
    histInv (processUpdate s now inp).1 ∧
      (processUpdate s now inp).1.lastDetectionTime ≤ now := by
  have hs1 : histInv (silenceReset s now) := histInv_silence s now h
  have hs1lt : (silenceReset s now).lastDetectionTime < now := by
    rw [silenceReset_last]
    exact hlt
  cases inp with
  | earlyReject =>
    rw [processUpdate_early]
    exact ⟨h, le_of_lt hlt⟩
  | full raw d e =>
    cases d with
    | true =>
      rw [processUpdate_full_drop]
      by_cases hg : adaptiveGateRejects (silenceReset s now) e = true
      · rw [if_pos hg]
        exact ⟨hs1, le_of_lt hs1lt⟩
      · rw [if_neg hg]
        have := histInv_commit { silenceReset s now with referenceBpm := raw } now raw e true
          (histInv_refset _ raw hs1) hs1lt
        exact ⟨this.1, le_of_eq this.2⟩
    | false =>
      rw [processUpdate_full_nondrop]
      by_cases hg : adaptiveGateRejects (silenceReset s now) e = true
      · rw [if_pos hg]
        exact ⟨hs1, le_of_lt hs1lt⟩
      · rw [if_neg hg]
        by_cases hp : 0 < (silenceReset s now).referenceBpm
        · rw [if_pos hp]
          by_cases hacc : referenceAccept (silenceReset s now).referenceBpm raw = true
          · rw [if_pos hacc]
            have := histInv_commit (silenceReset s now) now raw e false hs1 hs1lt
            exact ⟨this.1, le_of_eq this.2⟩
          · rw [if_neg hacc]
            exact ⟨hs1, le_of_lt hs1lt⟩
        · rw [if_neg hp]
          exact ⟨hs1, le_of_lt hs1lt⟩

theorem chain_lt_of_le (a b : ℚ) (l : List ℚ) (hba : b ≤ a)
    (h : List.Chain (· < ·) a l) : List.Chain (· < ·) b l := by
  cases l with
  | nil => exact List.Chain.nil
  | cons c l =>
    rw [List.chain_cons] at h ⊢
    exact ⟨lt_of_le_of_lt hba h.1, h.2⟩

theorem histInv_run (tr : List (ℚ × Input)) :
    ∀ s : State, histInv s → List.Chain (· < ·) s.lastDetectionTime (tr.map Prod.fst) →
      histInv (run s tr) := by
  induction tr with
  | nil =>
    intro s h _
    exact h
  | cons p rest ih =>
    intro s h hchain
    obtain ⟨t, i⟩ := p
    simp only [List.map_cons, List.chain_cons] at hchain
    obtain ⟨hlt, hrest⟩ := hchain
    obtain ⟨h2, h2le⟩ := histInv_step s t i h hlt
    unfold run
    exact ih (processUpdate s t i).1 h2 (chain_lt_of_le _ _ _ h2le hrest)

end BpmSpec.Old

namespace BpmSpec

/-- Claim C9: after any sequence of process calls with strictly increasing
wall-clock readings, the reference-lock analyser's BPM history holds at most
5 entries and their timestamps are strictly increasing from oldest to newest;
and whenever an estimate is accepted while the history already holds 5
entries (and the 10 s silence reset does not fire), the oldest entry is
evicted and the new entry appended. -/
theorem C9_history_invariants :
    (∀ (t0 : ℚ) (tr : List (ℚ × Old.Input)),
      List.Chain (· < ·) t0 (tr.map Prod.fst) →
      (Old.run (Old.init t0) tr).history.length ≤ 5 ∧
        List.Chain' (· < ·)
          ((Old.run (Old.init t0) tr).history.map Old.HistEntry.timestamp)) ∧
    (∀ (s : Old.State) (now raw e : ℚ) (d : Bool),
      now - s.lastDetectionTime ≤ 10 → s.history.length = 5 →
      (Old.processUpdate s now (Old.Input.full raw d e)).2.isSome = true →
      (Old.processUpdate s now (Old.Input.full raw d e)).1.history =
        s.history.tail ++ [⟨raw, e, now⟩]) := by
  constructor
  · intro t0 tr hchain
    have hinit : Old.histInv (Old.init t0) := ⟨by simp [Old.init], by simp [Old.init], by simp [Old.init]⟩
    have := Old.histInv_run tr (Old.init t0) hinit hchain
    exact ⟨this.1, this.2.1⟩
  · intro s now raw e d hle h5 hsome
    have hs1 : Old.silenceReset s now = s := Old.silenceReset_of_le s now hle
    have htail : (if 5 ≤ s.history.length then s.history.tail else s.history) =
        s.history.tail := if_pos (by omega)
    cases d with
    | true =>
      rw [Old.processUpdate_full_drop, hs1] at hsome ⊢
      by_cases hg : Old.adaptiveGateRejects s e = true
      · rw [if_pos hg] at hsome
        simp at hsome
      · rw [if_neg hg]
        rw [Old.commit_hist]
        simp only
        rw [htail]
    | false =>
      rw [Old.processUpdate_full_nondrop, hs1] at hsome ⊢
      by_cases hg : Old.adaptiveGateRejects s e = true
      · rw [if_pos hg] at hsome
        simp at hsome
      · rw [if_neg hg] at hsome ⊢
        by_cases hp : 0 < s.referenceBpm
        · rw [if_pos hp] at hsome ⊢
          by_cases hacc : Old.referenceAccept s.referenceBpm raw = true
          · rw [if_pos hacc]
            rw [Old.commit_hist, htail]
          · rw [if_neg hacc] at hsome
            simp at hsome
        · rw [if_neg hp] at hsome
          simp at hsome

/-- Witness for C9: one accepted drop after construction keeps the history
within bounds; a concrete accepted estimate on a full 5-entry history evicts
the oldest entry. -/
theorem C9_history_invariants_witness :
    ((Old.run (Old.init 0) [(1, Old.Input.full 120 true 1)]).history.length ≤ 5) ∧
    ((Old.processUpdate Wit.sC9 6 (Old.Input.full 100 false 1)).1.history =
      Wit.sC9.history.tail ++ [⟨100, 1, 6⟩]) :=
  ⟨(C9_history_invariants.1 0 [(1, Old.Input.full 120 true 1)]
      (List.Chain.cons (by norm_num) List.Chain.nil)).1,
   C9_history_invariants.2 Wit.sC9 6 100 1 false (by norm_num [Wit.sC9])
     (by norm_num [Wit.sC9])
     (by norm_num [Old.processUpdate, Old.silenceReset, Old.adaptiveGateRejects,
       Old.referenceAccept, Old.commit, Wit.sC9, Bool.or_eq_true, decide_eq_true_eq, abs_le])⟩

end BpmSpec

namespace BpmSpec.NewA

theorem pushAll_coarse_capacity (s : State) (samples : List ℚ) :
    (pushAll s samples).coarseC.capacity = s.coarseC.capacity := rfl

theorem pushAll_history (s : State) (samples : List ℚ) :
    (pushAll s samples).history = s.history := rfl

theorem process_eq (s : State) (samples : List ℚ) (reports : List (ℚ × ℚ))
    (aubioLast now : ℚ) :
    process s samples reports aubioLast now =
      match frontOut (pushAll s samples) with
      | none => (pushAll s samples, none)
      | some fo =>
        backEnd (pushAll s samples) fo (aubioSelect (reports.take (samples.length / s.hop)))
          aubioLast now := rfl

theorem frontOut_none_of_not_full (s : State)
    (h : s.coarseC.buffer.length < s.coarseC.capacity) : frontOut s = none := by
  unfold frontOut
  rw [if_pos h]

theorem searchBest_eq (v : List ℚ) (minLag maxLag : ℕ) :
    searchBest v minLag maxLag =
      scanFold (smoothedCorr v (max minLag 1) (min maxLag (v.length - 1)))
        (List.range' (max minLag 1) (min maxLag (v.length - 1) + 1 - max minLag 1)) := rfl

theorem searchCorrelation_eq (v : List ℚ) (energy : ℚ) (minLag maxLag : ℕ) (minConf : ℚ) :
    searchCorrelation v energy minLag maxLag minConf =
      (if (searchBest v minLag maxLag).1 = 0 then none
       else if (if 0 < energy then (searchBest v minLag maxLag).2 / energy else 0) < minConf then
         none
       else some ((searchBest v minLag maxLag).1,
         (if 0 < energy then (searchBest v minLag maxLag).2 / energy else 0),
         (searchBest v minLag maxLag).2)) := rfl

theorem zero_not_mem_searchRange (minLag n : ℕ) :
    0 ∉ List.range' (max minLag 1) n := by
  intro h
  have := (List.mem_range'_1.mp h).1
  omega

end BpmSpec.NewA

namespace BpmSpec.Old

theorem pushStage_rate (s : FullState) (samples : List ℚ) :
    (pushStage s samples).coarseRate = s.coarseRate := rfl

theorem pushStage_smoothing (s : FullState) (samples : List ℚ) :
    (pushStage s samples).smoothing = s.smoothing := rfl

theorem analysisOut_none_of_gate (s : FullState)
    (h : s.coarseBuffer.length < (⌊s.coarseRate * 2⌋).toNat) : analysisOut s = none := by
  unfold analysisOut
  rw [if_pos h]

theorem oldProcess_eq (s : FullState) (now : ℚ) (samples : List ℚ) :
    process s now samples =
      match analysisOut (pushStage s samples) with
      | none => (pushStage s samples, none)
      | some f =>
        let r := processUpdate (pushStage s samples).smoothing now (.full f.1 f.2.1 f.2.2)
        ({ pushStage s samples with smoothing := r.1 }, r.2) := rfl

end BpmSpec.Old

namespace BpmSpec

/-- Claim C6 counterexample: a reference-lock analyser state whose coarse
buffer holds 16 samples — half the `⌊4·coarse_rate⌋ = 32` its constructor
allocates as capacity — passes the two-second gate of line 173, and the call
returns an estimate (a 60 BPM drop), refuting that no estimate can appear
before the coarse buffer is full. -/
theorem C6_counterexample :
    Wit.sC6full.coarseBuffer.length < Wit.sC6full.coarseCapacity ∧
    Wit.sC6full.coarseCapacity = (⌊Wit.sC6full.coarseRate * 4⌋).toNat ∧
    (Old.process Wit.sC6full 1 []).2.isSome = true := by
  refine ⟨by norm_num [Wit.sC6full, Wit.coarseC6],
    by norm_num [Wit.sC6full]; decide, ?_⟩
  have heval : (Old.process Wit.sC6full 1 []).2 =
      some ⟨60, true, 15 / 256, 15 / 256⟩ := by
    norm_num [Old.process, Old.pushStage, Old.analysisOut, Old.coarseSearch,
      Old.checkHarmonics, Old.scanThree, Old.checkDropWindow, Old.processUpdate,
      Old.silenceReset, Old.adaptiveGateRejects, Old.commit, Old.init,
      NewA.parabolicInterpolation, NewA.pushList, NewA.pushEvict, NewA.Biquad.run,
      scanFold, scanStep, corrAt, chunksOf, round01, sortQ, insertSorted,
      Wit.sC6full, Wit.fineC6, Wit.coarseC6, Wit.idBq, List.range', round_eq, max_def,
      abs_eq_max_neg]
  rw [heval]
  rfl

/-- Claim C6 amended: the newer analyser returns no estimate until its
coarse buffer is full — below capacity after the push, the call returns
`none` with the state exactly the buffer-updated state and the history
untouched, the constructor capacity being `rate · duration` truncated.  The
reference-lock analyser instead gates on two seconds of data: its `process`
returns `none` with every later stage skipped exactly while the coarse
buffer holds fewer than `⌊2·coarse_rate⌋` samples, which for every
`coarse_rate ≥ 1` is strictly below the `⌊4·coarse_rate⌋` capacity its
constructor allocates, so it can return estimates while its coarse buffer is
not yet full. -/
theorem C6_buffer_gate_amended :
    (∀ (s : NewA.State) (samples : List ℚ) (reports : List (ℚ × ℚ)) (aubioLast now : ℚ),
      (NewA.pushAll s samples).coarseC.buffer.length < s.coarseC.capacity →
      (NewA.process s samples reports aubioLast now).2 = none ∧
        (NewA.process s samples reports aubioLast now).1 = NewA.pushAll s samples ∧
        (NewA.process s samples reports aubioLast now).1.history = s.history) ∧
    (∀ (rate durationSecs : ℚ) (step : ℕ) (minBpm maxBpm : ℚ),
      (NewA.SConfig.make rate durationSecs step minBpm maxBpm).capacity =
        (⌊rate * durationSecs⌋).toNat) ∧
    (∀ (s : Old.FullState) (now : ℚ) (samples : List ℚ),
      (Old.pushStage s samples).coarseBuffer.length < (⌊s.coarseRate * 2⌋).toNat →
      (Old.process s now samples).2 = none ∧
        (Old.process s now samples).1 = Old.pushStage s samples ∧
        (Old.process s now samples).1.smoothing = s.smoothing) ∧
    (∀ rate : ℚ, 1 ≤ rate → (⌊rate * 2⌋).toNat < (⌊rate * 4⌋).toNat) := by
  refine ⟨?_, ?_, ?_, ?_⟩
  · intro s samples reports aubioLast now h
    have hfo : NewA.frontOut (NewA.pushAll s samples) = none :=
      NewA.frontOut_none_of_not_full _ (by rw [NewA.pushAll_coarse_capacity]; exact h)
    rw [NewA.process_eq, hfo]
    exact ⟨rfl, rfl, NewA.pushAll_history s samples⟩
  · intro rate durationSecs step minBpm maxBpm
    rfl
  · intro s now samples h
    have hA : Old.analysisOut (Old.pushStage s samples) = none :=
      Old.analysisOut_none_of_gate _ (by rw [Old.pushStage_rate]; exact h)
    rw [Old.oldProcess_eq, hA]
    exact ⟨rfl, rfl, Old.pushStage_smoothing s samples⟩
  · intro rate hr
    have h2 : (2 : ℤ) ≤ ⌊rate * 2⌋ := by
      rw [Int.le_floor]
      push_cast
      linarith
    have h4 : ⌊rate * 2⌋ + 2 ≤ ⌊rate * 4⌋ := by
      have hcast : ⌊rate * 2⌋ + 2 = ⌊rate * 2 + ((2 : ℤ) : ℚ)⌋ := (Int.floor_add_int _ _).symm
      rw [hcast]
      exact Int.floor_le_floor (by push_cast; linarith)
    omega

/-- Witness for the amended C6: an under-filled newer-analyser state and an
empty-buffer reference-lock state each reject an empty batch, and at coarse
rate 8 the two-second gate asks for 16 samples while the capacity is 32. -/
theorem C6_buffer_gate_amended_witness :
    (NewA.process Wit.sC6 [] [] 0 0).2 = none ∧
    (Old.process Wit.sC6empty 1 []).2 = none ∧
    (⌊(8 : ℚ) * 2⌋).toNat < (⌊(8 : ℚ) * 4⌋).toNat :=
  ⟨(C6_buffer_gate_amended.1 Wit.sC6 [] [] 0 0
      (by norm_num [NewA.pushAll, NewA.pushList, NewA.fineOutputs, chunksOf, Wit.sC6])).1,
   (C6_buffer_gate_amended.2.2.1 Wit.sC6empty 1 []
      (by norm_num [Old.pushStage, NewA.pushList, chunksOf, Wit.sC6empty, Wit.sC6full])).1,
   C6_buffer_gate_amended.2.2.2 8 (by norm_num)⟩

/-- Claim C7 counterexample: on the centred 7-sample signal
`[1,0,0,1,0,0,1]` with energy 3, lag range `[1,5]` and minimum confidence
0.1, the search succeeds at lag 2 with confidence 2/9 — but the raw
correlation at lag 2 is 0 (the winner is chosen on the smoothed
correlations), so the returned confidence is not `r(l*)/energy_sum`. -/
theorem C7_counterexample :
    NewA.searchCorrelation [1, 0, 0, 1, 0, 0, 1] 3 1 5 (1 / 10) = some (2, 2 / 9, 2 / 3) ∧
    corrAt [1, 0, 0, 1, 0, 0, 1] 2 = 0 ∧
    (2 / 9 : ℚ) ≠ corrAt [1, 0, 0, 1, 0, 0, 1] 2 / 3 := by
  refine ⟨?_, ?_, ?_⟩
  · norm_num [NewA.searchCorrelation, NewA.searchBest, NewA.smoothedCorr, scanFold, scanStep,
      corrAt, List.range']
  · norm_num [corrAt]
  · norm_num [corrAt]

/-- Claim C7 (amended): the search fails exactly when no lag of the searched
range has a positive smoothed correlation (three-point moving average on the
interior of the range) or when the smoothed confidence is below the
threshold; on success it returns the smoothed argmax lag, the smoothed
confidence (which is at least the threshold), and the positive smoothed
correlation of the returned lag. -/
theorem C7_search_amended :
    ∀ (v : List ℚ) (energy : ℚ) (minLag maxLag : ℕ) (minConf : ℚ),
      (NewA.searchCorrelation v energy minLag maxLag minConf = none ↔
        ((∀ lag ∈ List.range' (max minLag 1) (min maxLag (v.length - 1) + 1 - max minLag 1),
            NewA.smoothedCorr v (max minLag 1) (min maxLag (v.length - 1)) lag ≤ 0) ∨
          specConfC7 v energy minLag maxLag < minConf)) ∧
      (∀ r : ℕ × ℚ × ℚ, NewA.searchCorrelation v energy minLag maxLag minConf = some r →
        r = ((NewA.searchBest v minLag maxLag).1, specConfC7 v energy minLag maxLag,
             (NewA.searchBest v minLag maxLag).2) ∧
        minConf ≤ r.2.1 ∧ 0 < r.2.2 ∧
        r.2.2 = NewA.smoothedCorr v (max minLag 1) (min maxLag (v.length - 1)) r.1 ∧
        r.1 ∈ List.range' (max minLag 1) (min maxLag (v.length - 1) + 1 - max minLag 1)) := by
  intro v energy minLag maxLag minConf
  have h0 : 0 ∉ List.range' (max minLag 1) (min maxLag (v.length - 1) + 1 - max minLag 1) :=
    NewA.zero_not_mem_searchRange minLag _
  have hiff := scanFold_fst_eq_zero_iff
    (NewA.smoothedCorr v (max minLag 1) (min maxLag (v.length - 1)))
    (List.range' (max minLag 1) (min maxLag (v.length - 1) + 1 - max minLag 1)) h0
  constructor
  · rw [NewA.searchCorrelation_eq]
    constructor
    · intro hnone
      by_cases hz : (NewA.searchBest v minLag maxLag).1 = 0
      · left
        rw [NewA.searchBest_eq] at hz
        exact hiff.mp hz
      · rw [if_neg hz] at hnone
        right
        by_cases hc : (if 0 < energy then (NewA.searchBest v minLag maxLag).2 / energy else 0) <
            minConf
        · exact hc
        · rw [if_neg hc] at hnone
          exact Option.noConfusion hnone
    · intro hdisj
      rcases hdisj with hall | hconf
      · rw [if_pos]
        rw [NewA.searchBest_eq]
        exact hiff.mpr hall
      · by_cases hz : (NewA.searchBest v minLag maxLag).1 = 0
        · rw [if_pos hz]
        · unfold specConfC7 at hconf
          rw [if_neg hz, if_pos hconf]
  · intro r hsome
    rw [NewA.searchCorrelation_eq] at hsome
    by_cases hz : (NewA.searchBest v minLag maxLag).1 = 0
    · rw [if_pos hz] at hsome
      exact Option.noConfusion hsome
    · rw [if_neg hz] at hsome
      by_cases hc : (if 0 < energy then (NewA.searchBest v minLag maxLag).2 / energy else 0) <
          minConf
      · rw [if_pos hc] at hsome
        exact Option.noConfusion hsome
      · rw [if_neg hc] at hsome
        have hr : r = ((NewA.searchBest v minLag maxLag).1,
            (if 0 < energy then (NewA.searchBest v minLag maxLag).2 / energy else 0),
            (NewA.searchBest v minLag maxLag).2) := (Option.some.inj hsome).symm
        subst hr
        have hfacts := scanFold_of_fst_ne_zero
          (NewA.smoothedCorr v (max minLag 1) (min maxLag (v.length - 1)))
          (List.range' (max minLag 1) (min maxLag (v.length - 1) + 1 - max minLag 1))
          (by rw [← NewA.searchBest_eq]; exact hz)
        rw [← NewA.searchBest_eq] at hfacts
        exact ⟨rfl, le_of_not_lt hc, hfacts.2.2, hfacts.1, hfacts.2.1⟩

/-- Witness for the amended C7 at the concrete search of the counterexample
signal: the success facts hold with confidence 2/9 above the threshold. -/
theorem C7_search_amended_witness :
    NewA.searchCorrelation [1, 0, 0, 1, 0, 0, 1] 3 1 5 (1 / 10) = some (2, 2 / 9, 2 / 3) ∧
    ((1 : ℚ) / 10 ≤ (2 / 9 : ℚ) ∧ (0 : ℚ) < (2 / 3 : ℚ)) := by
  have heq : NewA.searchCorrelation [1, 0, 0, 1, 0, 0, 1] 3 1 5 (1 / 10) =
      some (2, 2 / 9, 2 / 3) := by
    norm_num [NewA.searchCorrelation, NewA.searchBest, NewA.smoothedCorr, scanFold, scanStep,
      corrAt, List.range']
  have h := (C7_search_amended [1, 0, 0, 1, 0, 0, 1] 3 1 5 (1 / 10)).2 (2, 2 / 9, 2 / 3) heq
  exact ⟨heq, h.2.1, h.2.2.1⟩

end BpmSpec

namespace BpmSpec.NewA

theorem backEnd_reject (s : State) (fo : FrontOut) (sel : ℚ × ℚ) (aubioLast now : ℚ)
    (hv : sel.2 ≠ 0 ∧ aubioValid fo.bpm sel.2 = false) :
    (backEnd s fo sel aubioLast now).2 = none ∧
      ((backEnd s fo sel aubioLast now).1.history = s.history ∨
        (backEnd s fo sel aubioLast now).1.history = []) := by
  simp only [backEnd]
  rw [if_pos hv]
  refine ⟨rfl, ?_⟩
  cases hgl : s.history.getLast? with
  | none => simp [hgl]
  | some e =>
    by_cases ht : 10 < now - e.timestamp
    · simp [hgl, ht]
    · simp [hgl, ht]

theorem backEnd_some (s : State) (fo : FrontOut) (sel : ℚ × ℚ) (aubioLast now : ℚ)
    (r : Result) (h : (backEnd s fo sel aubioLast now).2 = some r) :
    (sel.2 ≠ 0 → aubioValid fo.bpm sel.2 = true) ∧
      r.beatOffset = (if fo.isDrop then some aubioLast else none) ∧ r.isDrop = fo.isDrop := by
  simp only [backEnd] at h
  by_cases hv : sel.2 ≠ 0 ∧ aubioValid fo.bpm sel.2 = false
  · rw [if_pos hv] at h
    exact Option.noConfusion h
  · rw [if_neg hv] at h
    have hlit := Option.some.inj h
    refine ⟨?_, by rw [← hlit], by rw [← hlit]⟩
    intro hne
    cases hb : aubioValid fo.bpm sel.2 with
    | false => exact absurd ⟨hne, hb⟩ hv
    | true => rfl

end BpmSpec.NewA

namespace BpmSpec

/-- Claim C8 counterexample: on the concrete state `S0` the newer analyser
accepts a non-drop batch and returns `beat_offset = None`, while the claim
requires a beat offset `(N-1-p)/fine_rate` (here `7/27`) to be present in
every result. -/
theorem C8_counterexample :
    (NewA.process Wit.S0 [] [] 7 0).2.map NewA.Result.beatOffset = some none ∧
    specBeatOffsetC8 Wit.fineP 27 false = 7 / 27 ∧
    (some (none : Option ℚ) ≠ some (some (7 / 27 : ℚ))) := by
  refine ⟨?_, ?_, by simp⟩
  · have heval : (NewA.process Wit.S0 [] [] 7 0).2 = some Wit.R0 := by
      norm_num [NewA.process, NewA.pushAll, NewA.frontOut, NewA.normalizeWindow,
        NewA.searchCorrelation, NewA.searchBest, NewA.smoothedCorr, NewA.checkHarmonics,
        NewA.parabolicInterpolation, NewA.checkDrop, NewA.backEnd, NewA.aubioSelect,
        NewA.aubioValid, NewA.pushList, NewA.pushEvict, NewA.fineOutputs, NewA.filterRun,
        NewA.Biquad.run, scanFold, scanStep, corrAt, chunksOf, round01, sortQ, insertSorted,
        Wit.S0, Wit.R0, Wit.fineP, Wit.coarseP, Wit.idBq, List.range', round_eq, max_def,
        abs_eq_max_neg]
    rw [heval]
    rfl
  · norm_num [specBeatOffsetC8, argmaxIdx, Wit.fineP, List.range', List.getD,
      List.getElem?_cons_succ, List.getElem?_cons_zero]

/-- Claim C8 (amended): in every accepted result of the newer analyser the
beat offset is the aubio tracker's last-beat time when the batch is a drop
and absent otherwise; it is not derived from the argmax of the fine
window. -/
theorem C8_beat_offset_amended :
    ∀ (s : NewA.State) (samples : List ℚ) (reports : List (ℚ × ℚ)) (aubioLast now : ℚ)
      (r : NewA.Result),
      (NewA.process s samples reports aubioLast now).2 = some r →
      r.beatOffset = (if r.isDrop then some aubioLast else none) := by
  intro s samples reports aubioLast now r h
  rw [NewA.process_eq] at h
  cases hfo : NewA.frontOut (NewA.pushAll s samples) with
  | none =>
    rw [hfo] at h
    exact Option.noConfusion h
  | some fo =>
    rw [hfo] at h
    have hb := NewA.backEnd_some _ fo _ aubioLast now r h
    rw [hb.2.1, hb.2.2]

/-- Witness for the amended C8: the accepted non-drop result on `S0` carries
no beat offset. -/
theorem C8_beat_offset_amended_witness :
    (NewA.process Wit.S0 [] [] 7 0).2 = some Wit.R0 ∧
    Wit.R0.beatOffset = (if Wit.R0.isDrop then some (7 : ℚ) else none) := by
  have heval : (NewA.process Wit.S0 [] [] 7 0).2 = some Wit.R0 := by
    norm_num [NewA.process, NewA.pushAll, NewA.frontOut, NewA.normalizeWindow,
      NewA.searchCorrelation, NewA.searchBest, NewA.smoothedCorr, NewA.checkHarmonics,
      NewA.parabolicInterpolation, NewA.checkDrop, NewA.backEnd, NewA.aubioSelect,
      NewA.aubioValid, NewA.pushList, NewA.pushEvict, NewA.fineOutputs, NewA.filterRun,
      NewA.Biquad.run, scanFold, scanStep, corrAt, chunksOf, round01, sortQ, insertSorted,
      Wit.S0, Wit.R0, Wit.fineP, Wit.coarseP, Wit.idBq, List.range', round_eq, max_def,
      abs_eq_max_neg]
  exact ⟨heval, C8_beat_offset_amended Wit.S0 [] [] 7 0 Wit.R0 heval⟩

/-- Claim C10: in the newer analyser, whenever the aubio tracker reports a
nonzero BPM for the batch, an estimate is returned only if the
autocorrelation BPM lies within `[m·aubio − 15, m·aubio + 5]` for some
multiplier `1 ≤ m ≤ 5`; otherwise the batch is rejected: no estimate, and no
entry is pushed into the history (which keeps its value, or is emptied by
the 10 s silence reset that precedes the validation). -/
theorem C10_aubio_validation :
    (∀ b a : ℚ, NewA.aubioValid b a = true ↔
      ∃ m : ℕ, 1 ≤ m ∧ m ≤ 5 ∧ a * m - 15 ≤ b ∧ b ≤ a * m + 5) ∧
    (∀ (s : NewA.State) (samples : List ℚ) (reports : List (ℚ × ℚ)) (aubioLast now : ℚ),
      (NewA.aubioSelect (reports.take (samples.length / s.hop))).2 ≠ 0 →
      ((∀ r : NewA.Result, (NewA.process s samples reports aubioLast now).2 = some r →
        ∃ fo : NewA.FrontOut, NewA.frontOut (NewA.pushAll s samples) = some fo ∧
          NewA.aubioValid fo.bpm
            (NewA.aubioSelect (reports.take (samples.length / s.hop))).2 = true) ∧
       (∀ fo : NewA.FrontOut, NewA.frontOut (NewA.pushAll s samples) = some fo →
        NewA.aubioValid fo.bpm
          (NewA.aubioSelect (reports.take (samples.length / s.hop))).2 = false →
        (NewA.process s samples reports aubioLast now).2 = none ∧
          ((NewA.process s samples reports aubioLast now).1.history = s.history ∨
            (NewA.process s samples reports aubioLast now).1.history = [])))) := by
  constructor
  · intro b a
    rw [NewA.aubioValid]
    rw [List.any_eq_true]
    constructor
    · rintro ⟨m, hm, hp⟩
      rw [Bool.and_eq_true, decide_eq_true_eq, decide_eq_true_eq] at hp
      have hm2 := List.mem_range'_1.mp hm
      exact ⟨m, by omega, by omega, hp.1, hp.2⟩
    · rintro ⟨m, h1, h5, hlo, hhi⟩
      refine ⟨m, List.mem_range'_1.mpr ⟨by omega, by omega⟩, ?_⟩
      rw [Bool.and_eq_true, decide_eq_true_eq, decide_eq_true_eq]
      exact ⟨hlo, hhi⟩
  · intro s samples reports aubioLast now hsel
    constructor
    · intro r h
      rw [NewA.process_eq] at h
      cases hfo : NewA.frontOut (NewA.pushAll s samples) with
      | none =>
        rw [hfo] at h
        exact Option.noConfusion h
      | some fo =>
        rw [hfo] at h
        exact ⟨fo, rfl, (NewA.backEnd_some _ fo _ aubioLast now r h).1 hsel⟩
    · intro fo hfo hval
      rw [NewA.process_eq, hfo]
      have hr := NewA.backEnd_reject (NewA.pushAll s samples) fo
        (NewA.aubioSelect (reports.take (samples.length / s.hop))) aubioLast now ⟨hsel, hval⟩
      rw [NewA.pushAll_history] at hr
      exact hr

/-- Witness for C10: on the concrete state `S1` with an aubio report of
1000 BPM and an autocorrelation estimate of 240 BPM, no multiplier matches
and the batch is rejected. -/
theorem C10_aubio_validation_witness :
    (NewA.process Wit.S1 [0] [(1, 1000)] 7 0).2 = none := by
  have hfo : NewA.frontOut (NewA.pushAll Wit.S1 [0]) = some Wit.FO1 := by
    norm_num [NewA.pushAll, NewA.frontOut, NewA.normalizeWindow, NewA.searchCorrelation,
      NewA.searchBest, NewA.smoothedCorr, NewA.checkHarmonics, NewA.parabolicInterpolation,
      NewA.checkDrop, NewA.pushList, NewA.pushEvict, NewA.fineOutputs, NewA.filterRun,
      NewA.Biquad.run, scanFold, scanStep, corrAt, chunksOf, round01, Wit.S1, Wit.S0, Wit.FO1,
      Wit.fineP, Wit.coarseP, Wit.idBq, List.range', round_eq, max_def, abs_eq_max_neg]
  have hsel : (NewA.aubioSelect (([((1 : ℚ), (1000 : ℚ))]).take
      (([(0 : ℚ)]).length / Wit.S1.hop))).2 ≠ 0 := by
    norm_num [NewA.aubioSelect, Wit.S1, Wit.S0]
  have hval : NewA.aubioValid Wit.FO1.bpm (NewA.aubioSelect (([((1 : ℚ), (1000 : ℚ))]).take
      (([(0 : ℚ)]).length / Wit.S1.hop))).2 = false := by
    norm_num [NewA.aubioValid, NewA.aubioSelect, Wit.S1, Wit.S0, Wit.FO1, List.range']
  exact ((C10_aubio_validation.2 Wit.S1 [0] [(1, 1000)] 7 0 hsel).2 Wit.FO1 hfo hval).1

end BpmSpec

namespace BpmSpec

/-- Witness for the amended C5: the window of the counterexample satisfies
the 1.2-ratio characterisation. -/
theorem C5_drop_amended_witness :
    specErecent [10 / 11, 10 / 11, 10 / 11, 1] 3 >
      specEhist [10 / 11, 10 / 11, 10 / 11, 1] 3 * (6 / 5) ∧
    specErecent [10 / 11, 10 / 11, 10 / 11, 1] 3 > 1 / 100 :=
  (C5_drop_amended [10 / 11, 10 / 11, 10 / 11, 1]).mp (by norm_num [Old.checkDropWindow])

end BpmSpec
